import Mathlib

/-!
# tier4_tag_utils: the per-tag apriltag hypothesis

A shallow embedding of `src/common/tier4_tag_utils/src/apriltag_hypothesis.cpp`.

Conventions of the embedding:

* `double` values are exact rationals (`ℚ`); rounding, infinities and NaN payloads are
  not modelled.  The only irrational operation of the source, `std::sqrt`, occurs
  solely inside comparisons (`cv::norm(..) > t`, `std::sqrt(..) > t`), which are
  embedded as the decidable predicate `sqrtGt` and related to `Real.sqrt` by
  `sqrtGt_iff`.
* `rclcpp::Time` is a signed count of nanoseconds; `Duration::seconds()` divides by `10^9`.
  All timestamps are assumed to come from one clock and to stay inside the 64-bit range.
* `assert` is active: a failed assertion ends the call with `Fault.assertion`.  An access
  past the end of a `std::vector` or of a `cv::Mat` ends it with `Fault.outOfBounds`.
* `cv::KalmanFilter` (OpenCV, `modules/video/src/kalman.cpp`) is embedded for the shape
  chosen by `init(2, 2, 0, CV_64F)`: 2x1 states and 2x2 matrices.
-/

namespace tier4_tag_utils

/-! ## Points, vectors and matrices -/

/-- A `cv::Point2d`. -/
structure Point2d where
  x : ℚ
  y : ℚ
  deriving DecidableEq

namespace Point2d

/-- The default-constructed point `cv::Point2d()`. -/
def zero : Point2d := ⟨0, 0⟩

/-- The operator `+=` of `cv::Point2d`. -/
def add (p q : Point2d) : Point2d := ⟨p.x + q.x, p.y + q.y⟩

/-- The operator `-` of `cv::Point2d`. -/
def sub (p q : Point2d) : Point2d := ⟨p.x - q.x, p.y - q.y⟩

/-- The operator `/=` of `cv::Point2d` with a scalar. -/
def divScalar (p : Point2d) (k : ℚ) : Point2d := ⟨p.x / k, p.y / k⟩

end Point2d

/-- The comparison `std::sqrt(s) > t` on doubles, decided without computing the root:
for `s >= 0` the root exceeds `t` exactly when `t` is negative or `t * t < s`; for `s < 0`
the root is NaN and every comparison with it is false. -/
def sqrtGt (s t : ℚ) : Bool := decide (0 ≤ s ∧ (t < 0 ∨ t * t < s))

/-- The comparison `cv::norm(p) > t`, where `cv::norm(p) = sqrt(p.x * p.x + p.y * p.y)`. -/
def normGt (p : Point2d) (t : ℚ) : Bool := sqrtGt (p.x * p.x + p.y * p.y) t

/-- A 2x1 `cv::Mat` of doubles. -/
structure Vec2 where
  v0 : ℚ
  v1 : ℚ
  deriving DecidableEq

namespace Vec2

def zeros : Vec2 := ⟨0, 0⟩

def add (a b : Vec2) : Vec2 := ⟨a.v0 + b.v0, a.v1 + b.v1⟩

def sub (a b : Vec2) : Vec2 := ⟨a.v0 - b.v0, a.v1 - b.v1⟩

end Vec2

/-- A 2x2 `cv::Mat` of doubles; `mij` is `at<double>(i, j)`. -/
structure Mat2 where
  m00 : ℚ
  m01 : ℚ
  m10 : ℚ
  m11 : ℚ
  deriving DecidableEq

namespace Mat2

/-- The matrix `cv::Mat::zeros(2, 2, type)`. -/
def zeros : Mat2 := ⟨0, 0, 0, 0⟩

/-- The matrix `cv::Mat::eye(2, 2, type)`. -/
def eye : Mat2 := ⟨1, 0, 0, 1⟩

/-- The call `cv::setIdentity(m, cv::Scalar::all(v))`: `v` on the diagonal, zero elsewhere. -/
def setIdentity (_m : Mat2) (v : ℚ) : Mat2 := ⟨v, 0, 0, v⟩

def add (a b : Mat2) : Mat2 := ⟨a.m00 + b.m00, a.m01 + b.m01, a.m10 + b.m10, a.m11 + b.m11⟩

def sub (a b : Mat2) : Mat2 := ⟨a.m00 - b.m00, a.m01 - b.m01, a.m10 - b.m10, a.m11 - b.m11⟩

def mul (a b : Mat2) : Mat2 :=
  ⟨a.m00 * b.m00 + a.m01 * b.m10, a.m00 * b.m01 + a.m01 * b.m11,
   a.m10 * b.m00 + a.m11 * b.m10, a.m10 * b.m01 + a.m11 * b.m11⟩

def mulVec (a : Mat2) (v : Vec2) : Vec2 :=
  ⟨a.m00 * v.v0 + a.m01 * v.v1, a.m10 * v.v0 + a.m11 * v.v1⟩

/-- The transpose `m.t()`. -/
def t (m : Mat2) : Mat2 := ⟨m.m00, m.m10, m.m01, m.m11⟩

def det (m : Mat2) : ℚ := m.m00 * m.m11 - m.m01 * m.m10

/-- The pseudo-inverse that `DECOMP_SVD` applies: the inverse of a regular matrix, the
transpose divided by the squared Frobenius norm for a matrix of rank one, and zero for
the zero matrix. -/
def pinv (m : Mat2) : Mat2 :=
  if m.det ≠ 0 then
    ⟨m.m11 / m.det, -m.m01 / m.det, -m.m10 / m.det, m.m00 / m.det⟩
  else
    let n := m.m00 * m.m00 + m.m01 * m.m01 + m.m10 * m.m10 + m.m11 * m.m11
    if n = 0 then zeros
    else ⟨m.m00 / n, m.m10 / n, m.m01 / n, m.m11 / n⟩

/-- The call `cv::solve(a, b, x, DECOMP_SVD)`: the least-squares solution `x` of `a * x = b`. -/
def solve (a b : Mat2) : Mat2 := (pinv a).mul b

end Mat2

/-! ## cv::KalmanFilter -/

/-- The public matrices of a `cv::KalmanFilter` with 2 states and 2 measurements.  The
scratch buffers `temp1 .. temp5` are local values of `predict` and `correct`; the control
matrix is released by `init` (no control inputs). -/
structure KalmanFilter where
  statePre : Vec2
  statePost : Vec2
  transitionMatrix : Mat2
  processNoiseCov : Mat2
  measurementMatrix : Mat2
  measurementNoiseCov : Mat2
  errorCovPre : Mat2
  errorCovPost : Mat2
  gain : Mat2
  deriving DecidableEq

namespace KalmanFilter

/-- The call `init(2, 2, 0, CV_64F)`. -/
def init (_kf : KalmanFilter) : KalmanFilter :=
  { statePre := Vec2.zeros
    statePost := Vec2.zeros
    transitionMatrix := Mat2.eye
    processNoiseCov := Mat2.eye
    measurementMatrix := Mat2.zeros
    measurementNoiseCov := Mat2.eye
    errorCovPre := Mat2.zeros
    errorCovPost := Mat2.zeros
    gain := Mat2.zeros }

/-- A default-constructed filter.  Its matrices are empty in OpenCV; the source never reads
them before `init` (the flag `first_observation_` guards every read), so zero-filled
matrices stand for them here. -/
def empty : KalmanFilter :=
  { statePre := Vec2.zeros
    statePost := Vec2.zeros
    transitionMatrix := Mat2.zeros
    processNoiseCov := Mat2.zeros
    measurementMatrix := Mat2.zeros
    measurementNoiseCov := Mat2.zeros
    errorCovPre := Mat2.zeros
    errorCovPost := Mat2.zeros
    gain := Mat2.zeros }

/-- The call `predict()` without a control vector; the returned matrix is `statePre`. -/
def predict (kf : KalmanFilter) : KalmanFilter :=
  let statePre := kf.transitionMatrix.mulVec kf.statePost
  let temp1 := kf.transitionMatrix.mul kf.errorCovPost
  let errorCovPre := (temp1.mul kf.transitionMatrix.t).add kf.processNoiseCov
  { kf with
    statePre := statePre
    errorCovPre := errorCovPre
    statePost := statePre
    errorCovPost := errorCovPre }

/-- The call `correct(measurement)`; the returned matrix is `statePost`. -/
def correct (kf : KalmanFilter) (measurement : Vec2) : KalmanFilter :=
  let temp2 := kf.measurementMatrix.mul kf.errorCovPre
  let temp3 := (temp2.mul kf.measurementMatrix.t).add kf.measurementNoiseCov
  let temp4 := Mat2.solve temp3 temp2
  let gain := temp4.t
  let temp5 := measurement.sub (kf.measurementMatrix.mulVec kf.statePre)
  { kf with
    gain := gain
    statePost := kf.statePre.add (gain.mulVec temp5)
    errorCovPost := kf.errorCovPre.sub (gain.mul temp2) }

end KalmanFilter

/-! ## 3D points and the pose solver -/

/-- A `cv::Point3d`. -/
structure Point3d where
  x : ℚ
  y : ℚ
  z : ℚ
  deriving DecidableEq

namespace Point3d

/-- The default-constructed point `cv::Point3d()`. -/
def zero : Point3d := ⟨0, 0, 0⟩

/-- The operator `+=` of `cv::Point3d`. -/
def add (p q : Point3d) : Point3d := ⟨p.x + q.x, p.y + q.y, p.z + q.z⟩

/-- The operator `/=` of `cv::Point3d` with a scalar. -/
def divScalar (p : Point3d) (k : ℚ) : Point3d := ⟨p.x / k, p.y / k, p.z / k⟩

end Point3d

/-- A `cv::Matx31d`; the 3x1 matrices `rvec` and `tvec` of the pose solver have this shape. -/
structure Matx31d where
  v0 : ℚ
  v1 : ℚ
  v2 : ℚ
  deriving DecidableEq

namespace Matx31d

/-- The conversion `cv::Matx31d(point)`. -/
def ofPoint (p : Point3d) : Matx31d := ⟨p.x, p.y, p.z⟩

def add (a b : Matx31d) : Matx31d := ⟨a.v0 + b.v0, a.v1 + b.v1, a.v2 + b.v2⟩

end Matx31d

/-- A `cv::Matx33d`; `mij` is the entry `(i, j)`. -/
structure Matx33d where
  m00 : ℚ
  m01 : ℚ
  m02 : ℚ
  m10 : ℚ
  m11 : ℚ
  m12 : ℚ
  m20 : ℚ
  m21 : ℚ
  m22 : ℚ
  deriving DecidableEq

namespace Matx33d

/-- The product of a 3x3 matrix and a 3x1 matrix. -/
def mulVec (m : Matx33d) (v : Matx31d) : Matx31d :=
  ⟨m.m00 * v.v0 + m.m01 * v.v1 + m.m02 * v.v2,
   m.m10 * v.v0 + m.m11 * v.v1 + m.m12 * v.v2,
   m.m20 * v.v0 + m.m21 * v.v1 + m.m22 * v.v2⟩

end Matx33d

/-- The functions that `getPoints3d` calls and that are not part of this source file:
`cv::undistortPoints` with the intrinsics and distortion of the camera model,
`cv::sqpnp::PoseSolver::solve` (its outputs `rvec_vec` and `tvec_vec`), and `cv::Rodrigues`. -/
structure PoseCollaborators where
  undistortPoints : List Point2d → List Point2d
  solve : List Point3d → List Point2d → List Matx31d × List Matx31d
  Rodrigues : Matx31d → Matx33d

/-! ## The hypothesis -/

/-- An `rclcpp::Time`, in nanoseconds. -/
abbrev Time := ℤ

/-- The call `Duration::seconds()` on a difference of two times. -/
def seconds (nanoseconds : ℤ) : ℚ := (nanoseconds : ℚ) / 1000000000

inductive DynamicsModel where
  | Static
  | ConstantVelocity
  deriving DecidableEq

/-- How a call can end without returning. -/
inductive Fault where
  | assertion
  | outOfBounds
  deriving DecidableEq

/-- The data members of the class `ApriltagHypothesis`.  The camera model reference is
used by the 3D reconstruction only and is left out. -/
structure ApriltagHypothesis where
  first_observation_ : Bool
  dynamics_model_ : DynamicsModel
  id_ : ℤ
  first_observation_timestamp_ : Time
  last_observation_timestamp_ : Time
  latest_corner_points_2d_ : List Point2d
  filtered_corner_points_2d_ : List Point2d
  kalman_filters_ : Fin 4 → KalmanFilter
  tag_size_ : ℚ
  min_convergence_time_ : ℚ
  convergence_transl_ : ℚ
  new_hypothesis_transl_ : ℚ
  max_no_observation_time_ : ℚ
  measurement_noise_transl_ : ℚ
  process_noise_transl_ : ℚ

/-- The values of the `double` members, which the constructor does not set: they come from
the class declaration (not part of this source file) or from the setters. -/
structure Settings where
  tag_size : ℚ
  min_convergence_time : ℚ
  convergence_transl : ℚ
  new_hypothesis_transl : ℚ
  max_no_observation_time : ℚ
  measurement_noise_transl : ℚ
  process_noise_transl : ℚ

namespace ApriltagHypothesis

/-- The constructor `ApriltagHypothesis(id, pinhole_camera_model)`. -/
def construct (id : ℤ) (cfg : Settings) : ApriltagHypothesis :=
  { first_observation_ := true
    dynamics_model_ := DynamicsModel.Static
    id_ := id
    first_observation_timestamp_ := 0
    last_observation_timestamp_ := 0
    latest_corner_points_2d_ := []
    filtered_corner_points_2d_ := []
    kalman_filters_ := fun _ => KalmanFilter.empty
    tag_size_ := cfg.tag_size
    min_convergence_time_ := cfg.min_convergence_time
    convergence_transl_ := cfg.convergence_transl
    new_hypothesis_transl_ := cfg.new_hypothesis_transl
    max_no_observation_time_ := cfg.max_no_observation_time
    measurement_noise_transl_ := cfg.measurement_noise_transl
    process_noise_transl_ := cfg.process_noise_transl }

def setDynamicsModel (s : ApriltagHypothesis) (dynamics_model : DynamicsModel) :
    ApriltagHypothesis :=
  { s with dynamics_model_ := dynamics_model }

def setMinConvergenceTime (s : ApriltagHypothesis) (convergence_time : ℚ) :
    ApriltagHypothesis :=
  { s with min_convergence_time_ := convergence_time }

def setMaxConvergenceThreshold (s : ApriltagHypothesis) (transl : ℚ) : ApriltagHypothesis :=
  { s with convergence_transl_ := transl }

def setNewHypothesisThreshold (s : ApriltagHypothesis) (max_transl : ℚ) :
    ApriltagHypothesis :=
  { s with new_hypothesis_transl_ := max_transl }

def setMaxNoObservationTime (s : ApriltagHypothesis) (time : ℚ) : ApriltagHypothesis :=
  { s with max_no_observation_time_ := time }

def setMeasurementNoise (s : ApriltagHypothesis) (transl : ℚ) : ApriltagHypothesis :=
  { s with measurement_noise_transl_ := transl }

def setProcessNoise (s : ApriltagHypothesis) (transl : ℚ) : ApriltagHypothesis :=
  { s with process_noise_transl_ := transl }

def setTagSize (s : ApriltagHypothesis) (size : ℚ) : ApriltagHypothesis :=
  { s with tag_size_ := size }

/-- The method `toState`: both branches build the 2x1 matrix `(corner.x, corner.y)`. -/
def toState (s : ApriltagHypothesis) (corner : Point2d) : Vec2 :=
  match s.dynamics_model_ with
  | DynamicsModel.Static => ⟨corner.x, corner.y⟩
  | DynamicsModel.ConstantVelocity => ⟨corner.x, corner.y⟩

/-- The method `getCenter2d(corners)`: the size assertion, then the sum of `corners[0..3]`
accumulated from the default point and divided by 4. -/
def getCenter2d (corners : List Point2d) : Except Fault Point2d :=
  match corners with
  | [c0, c1, c2, c3] =>
    Except.ok (((((Point2d.zero.add c0).add c1).add c2).add c3).divScalar 4)
  | _ => Except.error Fault.assertion

/-- A loop `for (int i = 0; i < 4; ++i)` whose body may end the call. -/
def loop4 (body : ApriltagHypothesis → Fin 4 → Except Fault ApriltagHypothesis)
    (s : ApriltagHypothesis) : Except Fault ApriltagHypothesis :=
  (body s 0).bind fun s1 => (body s1 1).bind fun s2 => (body s2 2).bind fun s3 => body s3 3

/-- The statements of the loop body of `initStaticKalman` on the filter `kalman_filters_[i]`
and the corner `corners[i]`. -/
def initStaticKalmanFilter (s : ApriltagHypothesis) (kalman_filter : KalmanFilter)
    (corner : Point2d) : KalmanFilter :=
  let kalman_filter := kalman_filter.init
  let process_cov_transl := s.process_noise_transl_ * s.process_noise_transl_
  let kalman_filter :=
    { kalman_filter with processNoiseCov := kalman_filter.processNoiseCov.setIdentity 1 }
  let kalman_filter :=
    { kalman_filter with
      processNoiseCov :=
        { kalman_filter.processNoiseCov with
          m00 := process_cov_transl
          m11 := process_cov_transl } }
  let measurement_cov_transl := s.measurement_noise_transl_ * s.measurement_noise_transl_
  let kalman_filter :=
    { kalman_filter with
      measurementNoiseCov := kalman_filter.measurementNoiseCov.setIdentity 1 }
  let kalman_filter :=
    { kalman_filter with
      measurementNoiseCov :=
        { kalman_filter.measurementNoiseCov with
          m00 := measurement_cov_transl
          m11 := measurement_cov_transl } }
  let kalman_filter :=
    { kalman_filter with errorCovPost := kalman_filter.errorCovPost.setIdentity 1 }
  let kalman_filter :=
    { kalman_filter with transitionMatrix := kalman_filter.transitionMatrix.setIdentity 1 }
  let kalman_filter :=
    { kalman_filter with measurementMatrix := kalman_filter.measurementMatrix.setIdentity 1 }
  { kalman_filter with statePost := s.toState corner }

/-- One iteration of the loop of `initStaticKalman`: `corners[i]` has to exist. -/
def initStaticKalmanBody (corners : List Point2d) (s : ApriltagHypothesis) (i : Fin 4) :
    Except Fault ApriltagHypothesis :=
  match corners[i.val]? with
  | none => Except.error Fault.outOfBounds
  | some corner =>
    Except.ok
      { s with
        kalman_filters_ :=
          Function.update s.kalman_filters_ i
            (s.initStaticKalmanFilter (s.kalman_filters_ i) corner) }

/-- The method `initStaticKalman(corners)`. -/
def initStaticKalman (s : ApriltagHypothesis) (corners : List Point2d) :
    Except Fault ApriltagHypothesis :=
  loop4 (initStaticKalmanBody corners) s

/-- The method `initKalman(corners)`; the constant-velocity branch is `assert(false)`. -/
def initKalman (s : ApriltagHypothesis) (corners : List Point2d) :
    Except Fault ApriltagHypothesis :=
  match s.dynamics_model_ with
  | DynamicsModel.Static => s.initStaticKalman corners
  | DynamicsModel.ConstantVelocity => Except.error Fault.assertion

/-- The value `dt` of the constant-velocity branch of `update`, read after
`last_observation_timestamp_` has been overwritten at the top of `update`. -/
def updateDt (s : ApriltagHypothesis) (stamp : Time) : ℚ :=
  seconds (stamp - s.last_observation_timestamp_)

/-- The statements of the static branch of the filtering loop of `update` on the filter
`kalman_filters_[i]` and the corner `corners[i]`: predict, then correct. -/
def updateFilter (s : ApriltagHypothesis) (kalman_filter : KalmanFilter) (corner : Point2d) :
    KalmanFilter :=
  let kalman_filter := kalman_filter.predict
  let observation := s.toState corner
  kalman_filter.correct observation

/-- One iteration of the filtering loop of `update(corners, stamp)`.  The
constant-velocity branch writes `dt` at the entries (0,3), (1,4), (2,5), (6,9) of the
2x2 transition matrix, that is, past its end. -/
def updateBody (corners : List Point2d) (stamp : Time) (s : ApriltagHypothesis)
    (i : Fin 4) : Except Fault ApriltagHypothesis :=
  match s.dynamics_model_ with
  | DynamicsModel.Static =>
    match corners[i.val]? with
    | none => Except.error Fault.outOfBounds
    | some corner =>
      let kalman_filter := s.updateFilter (s.kalman_filters_ i) corner
      let estimated := kalman_filter.statePost
      if i.val < s.filtered_corner_points_2d_.length then
        Except.ok
          { s with
            kalman_filters_ := Function.update s.kalman_filters_ i kalman_filter
            filtered_corner_points_2d_ :=
              s.filtered_corner_points_2d_.set i.val ⟨estimated.v0, estimated.v1⟩ }
      else Except.error Fault.outOfBounds
  | DynamicsModel.ConstantVelocity =>
    let _dt := s.updateDt stamp
    Except.error Fault.outOfBounds

/-- The method `update(corners, stamp)`; the result carries the hypothesis after the call
and the returned flag. -/
def update (s : ApriltagHypothesis) (corners : List Point2d) (stamp : Time) :
    Except Fault (ApriltagHypothesis × Bool) :=
  let s := { s with last_observation_timestamp_ := stamp, latest_corner_points_2d_ := corners }
  if s.first_observation_ then
    let s :=
      { s with
        first_observation_ := false
        first_observation_timestamp_ := stamp
        filtered_corner_points_2d_ := corners }
    (s.initKalman corners).bind fun s => Except.ok (s, true)
  else
    (getCenter2d s.filtered_corner_points_2d_).bind fun filtered_center =>
    (getCenter2d corners).bind fun current_center =>
    if normGt (filtered_center.sub current_center) s.new_hypothesis_transl_ then
      let s :=
        { s with
          first_observation_timestamp_ := stamp
          filtered_corner_points_2d_ := corners }
      (s.initKalman corners).bind fun s => Except.ok (s, false)
    else
      (loop4 (updateBody corners stamp) s).bind fun s => Except.ok (s, true)

/-- The liveness probe `update(stamp)`. -/
def updateStamp (s : ApriltagHypothesis) (stamp : Time) : Bool :=
  let since_last_observation := seconds (stamp - s.last_observation_timestamp_)
  decide (since_last_observation < s.max_no_observation_time_)

/-- The loop of `converged()`: the flag stays true unless some filter, taken in order,
has `std::sqrt(max_transl_cov) > convergence_transl_`, at which point the loop breaks. -/
def convergedLoop (s : ApriltagHypothesis) : List (Fin 4) → Bool
  | [] => true
  | i :: rest =>
    let cov := (s.kalman_filters_ i).errorCovPost
    let max_transl_cov := max cov.m00 cov.m11
    if sqrtGt max_transl_cov s.convergence_transl_ then false
    else convergedLoop s rest

/-- The method `converged()`. -/
def converged (s : ApriltagHypothesis) : Bool :=
  let seconds_since_first_observation :=
    seconds (s.last_observation_timestamp_ - s.first_observation_timestamp_)
  if s.first_observation_ ||
      decide (seconds_since_first_observation < s.min_convergence_time_) then
    false
  else
    convergedLoop s [0, 1, 2, 3]

/-- The method `getCenter2d()` without argument: the centre of the filtered corners. -/
def getCenter2dFiltered (s : ApriltagHypothesis) : Except Fault Point2d :=
  getCenter2d s.filtered_corner_points_2d_

/-- The method `getPoints3d(image_points)`. -/
def getPoints3d (env : PoseCollaborators) (s : ApriltagHypothesis)
    (image_points : List Point2d) : Except Fault (List Point3d) :=
  let apriltag_template_points : List Point3d :=
    [⟨-0.5 * s.tag_size_, 0.5 * s.tag_size_, 0.0⟩,
     ⟨0.5 * s.tag_size_, 0.5 * s.tag_size_, 0.0⟩,
     ⟨0.5 * s.tag_size_, -0.5 * s.tag_size_, 0.0⟩,
     ⟨-0.5 * s.tag_size_, -0.5 * s.tag_size_, 0.0⟩]
  let undistorted_points := env.undistortPoints image_points
  let solution := env.solve apriltag_template_points undistorted_points
  let rvec_vec := solution.1
  let tvec_vec := solution.2
  if tvec_vec.length = 0 then Except.error Fault.assertion
  else if rvec_vec.length ≠ 1 then Except.error Fault.assertion
  else
    match rvec_vec[0]?, tvec_vec[0]? with
    | some rvec, some tvec =>
      let translation_vector := tvec
      let rotation_matrix := env.Rodrigues rvec
      Except.ok
        (apriltag_template_points.map fun template_point =>
          let p := (rotation_matrix.mulVec (Matx31d.ofPoint template_point)).add
            translation_vector
          (⟨p.v0, p.v1, p.v2⟩ : Point3d))
    | _, _ => Except.error Fault.outOfBounds

/-- The method `getLatestPoints3d()`. -/
def getLatestPoints3d (env : PoseCollaborators) (s : ApriltagHypothesis) :
    Except Fault (List Point3d) :=
  getPoints3d env s s.latest_corner_points_2d_

/-- The method `getFilteredPoints3d()`. -/
def getFilteredPoints3d (env : PoseCollaborators) (s : ApriltagHypothesis) :
    Except Fault (List Point3d) :=
  getPoints3d env s s.filtered_corner_points_2d_

/-- The method `getCenter3d(corners)`: the size assertion, then the sum of `corners[0..3]`
accumulated from the default point and divided by 4. -/
def getCenter3d (corners : List Point3d) : Except Fault Point3d :=
  match corners with
  | [c0, c1, c2, c3] =>
    Except.ok (((((Point3d.zero.add c0).add c1).add c2).add c3).divScalar 4)
  | _ => Except.error Fault.assertion

/-- The method `getCenter3d()` without argument: the centre of the filtered 3D corners. -/
def getCenter3dFiltered (env : PoseCollaborators) (s : ApriltagHypothesis) :
    Except Fault Point3d :=
  (getFilteredPoints3d env s).bind getCenter3d

end ApriltagHypothesis

end tier4_tag_utils

/-! # extrinsic_mapping_based_calibrator: the registration cascade

A shallow embedding of `findBestTransform` of
`src/sensor/extrinsic_mapping_based_calibrator/include/extrinsic_mapping_based_calibrator/utils.hpp`.
A transform is a value of an arbitrary type `T` (an `Eigen::Matrix4f` in the source); a
registrator is the function that takes the initial guess given to `align` to the pair of
`getFinalTransformation()` and `getFitnessScore()`; scores are exact rationals. -/

namespace extrinsic_mapping_based_calibrator

/-- The constant `std::numeric_limits<float>::max()`, `(2 - 2^-23) * 2^127`. -/
def FLT_MAX : ℚ := (2 ^ 24 - 1) * 2 ^ 104

/-- The inner loop of `findBestTransform` over `transforms`; the pair is
`(best_registrator_transform, best_registrator_score)`. -/
def registratorLoop {T : Type} (registrator : T → T × ℚ) : List T → T × ℚ → T × ℚ
  | [], best_registrator => best_registrator
  | transform :: rest, best_registrator =>
    let candidate := registrator transform
    if candidate.2 < best_registrator.2 then registratorLoop registrator rest candidate
    else registratorLoop registrator rest best_registrator

/-- The outer loop of `findBestTransform` over `registratators`; the pair is
`(best_transform, best_score)` and `transforms` grows by the best transform of each
registrator. -/
def cascadeLoop {T : Type} (identity : T) : List (T → T × ℚ) → List T → T × ℚ → T × ℚ
  | [], _, best => best
  | registrator :: rest, transforms, best =>
    let best_registrator := registratorLoop registrator transforms (identity, FLT_MAX)
    let best := if best_registrator.2 < best.2 then best_registrator else best
    cascadeLoop identity rest (transforms ++ [best_registrator.1]) best

/-- The function `findBestTransform`; the result is `(best_transform, best_score)`. -/
def findBestTransform {T : Type} (identity : T) (input_transforms : List T)
    (registratators : List (T → T × ℚ)) : T × ℚ :=
  cascadeLoop identity registratators input_transforms (identity, FLT_MAX)

end extrinsic_mapping_based_calibrator

namespace tier4_tag_utils

/-! ## Specification vocabulary -/

/-- The arithmetic mean of four points, coordinate by coordinate. -/
def mean4 (a b c d : Point2d) : Point2d :=
  ⟨(a.x + b.x + c.x + d.x) / 4, (a.y + b.y + c.y + d.y) / 4⟩

/-- The squared Euclidean distance of two points; the distance itself is its real square
root. -/
def distSq (p q : Point2d) : ℚ := (p.x - q.x) ^ 2 + (p.y - q.y) ^ 2

/-- The 2x2 matrix `p * I`. -/
def scalarMat (p : ℚ) : Mat2 := ⟨p, 0, 0, p⟩

/-- A filter of the static model: identity transition and measurement matrices, and the
covariances `p * I` (posterior), `qq * I` (process noise) and `rr * I` (measurement noise). -/
def IsStaticFilter (kf : KalmanFilter) (p qq rr : ℚ) : Prop :=
  kf.transitionMatrix = Mat2.eye ∧ kf.measurementMatrix = Mat2.eye ∧
    kf.processNoiseCov = scalarMat qq ∧ kf.measurementNoiseCov = scalarMat rr ∧
    kf.errorCovPost = scalarMat p

/-- All four filters of the hypothesis are static filters with one common posterior variance
and common noise variances, none of them negative. -/
def StaticBank (s : ApriltagHypothesis) : Prop :=
  ∃ p qq rr, 0 ≤ p ∧ 0 ≤ qq ∧ 0 ≤ rr ∧ ∀ i, IsStaticFilter (s.kalman_filters_ i) p qq rr

/-- The posterior variance after one predict/correct step of a static filter whose posterior
variance was `p`: with `a = p + qq` the predicted variance, `a - a * (a / (a + rr))`. -/
def nextVar (p qq rr : ℚ) : ℚ := (p + qq) - (p + qq) / (p + qq + rr) * (p + qq)

/-- The posterior variance of every filter after `n + 1` calls of `update` with the same
corners on a fresh hypothesis: the identity covariance of the initialisation, then either a
re-initialisation at every call (`reset`, the case of a negative new-hypothesis threshold)
or one predict/correct step per call. -/
def fedVar (qq rr : ℚ) (reset : Bool) : ℕ → ℚ
  | 0 => 1
  | n + 1 => if reset then 1 else nextVar (fedVar qq rr reset n) qq rr

/-- What holds of a hypothesis that was fed the same four corners `c0 .. c3` since its
construction with the settings `cfg`: it is observed and static, keeps its settings, its
filtered corners are the fed corners, and its four filters are static filters with posterior
variance `p` whose posterior states are the fed corners. -/
def FedInv (cfg : Settings) (c : Fin 4 → Point2d) (s : ApriltagHypothesis) (p : ℚ) : Prop :=
  s.first_observation_ = false ∧ s.dynamics_model_ = DynamicsModel.Static ∧
    s.filtered_corner_points_2d_ = [c 0, c 1, c 2, c 3] ∧
    s.new_hypothesis_transl_ = cfg.new_hypothesis_transl ∧
    s.process_noise_transl_ = cfg.process_noise_transl ∧
    s.measurement_noise_transl_ = cfg.measurement_noise_transl ∧
    s.min_convergence_time_ = cfg.min_convergence_time ∧
    s.convergence_transl_ = cfg.convergence_transl ∧
    ∀ i : Fin 4,
      IsStaticFilter (s.kalman_filters_ i) p
          (cfg.process_noise_transl * cfg.process_noise_transl)
          (cfg.measurement_noise_transl * cfg.measurement_noise_transl) ∧
        (s.kalman_filters_ i).statePost = ⟨(c i).x, (c i).y⟩

/-- The hypothesis after `k` calls `update(C, stamps 0)`, ..., `update(C, stamps (k - 1))`
made on `s`, all with the same corners `C`. -/
def feedSame (s : ApriltagHypothesis) (C : List Point2d) (stamps : ℕ → Time) :
    ℕ → Except Fault ApriltagHypothesis
  | 0 => Except.ok s
  | k + 1 =>
    (feedSame s C stamps k).bind fun sk =>
      (sk.update C (stamps k)).bind fun r => Except.ok r.1

/-- The hypotheses that a caller can obtain: a constructed one, changed by the setters and by
calls of `update` that return. -/
inductive Reachable : ApriltagHypothesis → Prop
  | construct (id : ℤ) (cfg : Settings) : Reachable (ApriltagHypothesis.construct id cfg)
  | update (s s1 : ApriltagHypothesis) (corners : List Point2d) (stamp : Time) (b : Bool) :
      Reachable s → s.update corners stamp = Except.ok (s1, b) → Reachable s1
  | setDynamicsModel (s : ApriltagHypothesis) (m : DynamicsModel) :
      Reachable s → Reachable (s.setDynamicsModel m)
  | setMinConvergenceTime (s : ApriltagHypothesis) (v : ℚ) :
      Reachable s → Reachable (s.setMinConvergenceTime v)
  | setMaxConvergenceThreshold (s : ApriltagHypothesis) (v : ℚ) :
      Reachable s → Reachable (s.setMaxConvergenceThreshold v)
  | setNewHypothesisThreshold (s : ApriltagHypothesis) (v : ℚ) :
      Reachable s → Reachable (s.setNewHypothesisThreshold v)
  | setMaxNoObservationTime (s : ApriltagHypothesis) (v : ℚ) :
      Reachable s → Reachable (s.setMaxNoObservationTime v)
  | setMeasurementNoise (s : ApriltagHypothesis) (v : ℚ) :
      Reachable s → Reachable (s.setMeasurementNoise v)
  | setProcessNoise (s : ApriltagHypothesis) (v : ℚ) :
      Reachable s → Reachable (s.setProcessNoise v)
  | setTagSize (s : ApriltagHypothesis) (v : ℚ) :
      Reachable s → Reachable (s.setTagSize v)

/-- The arithmetic mean of four 3D points, coordinate by coordinate. -/
def mean4_3d (a b c d : Point3d) : Point3d :=
  ⟨(a.x + b.x + c.x + d.x) / 4, (a.y + b.y + c.y + d.y) / 4, (a.z + b.z + c.z + d.z) / 4⟩

/-- The canonical tag template: a square of side `size` centred at the origin in the plane
`z = 0`, corners in the order top-left, top-right, bottom-right, bottom-left. -/
def squareTemplate (size : ℚ) : List Point3d :=
  [⟨-size / 2, size / 2, 0⟩, ⟨size / 2, size / 2, 0⟩, ⟨size / 2, -size / 2, 0⟩,
   ⟨-size / 2, -size / 2, 0⟩]

/-- The rigid motion `R * q + t` of a template point into the camera frame. -/
def toCamera (R : Matx33d) (t : Matx31d) (q : Point3d) : Point3d :=
  ⟨R.m00 * q.x + R.m01 * q.y + R.m02 * q.z + t.v0,
   R.m10 * q.x + R.m11 * q.y + R.m12 * q.z + t.v1,
   R.m20 * q.x + R.m21 * q.y + R.m22 * q.z + t.v2⟩

/-- The blend `x + K * (z - x)` of a previous value `x` and a measurement `z`. -/
def blend (K x z : ℚ) : ℚ := x + K * (z - x)

/-- The posterior variance `m` predict/correct steps after an initialisation. -/
def iterVar (qq rr : ℚ) : ℕ → ℚ
  | 0 => 1
  | m + 1 => nextVar (iterVar qq rr m) qq rr

/-- The number of continuous updates since the last (re)initialisation, read off the flags
returned by the calls of `update`, most recent first; the oldest call is the first
observation, and a false flag is a hard reset. -/
def contSince : List Bool → ℕ
  | [] => 0
  | [_] => 0
  | false :: _ => 0
  | true :: rest => contSince rest + 1

/-- The hypothesis after the `k` calls `update(corners 0, stamps 0)`, ...,
`update(corners (k - 1), stamps (k - 1))` made on `s`, together with the flags that the calls
returned, most recent first. -/
def feedSeq (s : ApriltagHypothesis) (corners : ℕ → List Point2d) (stamps : ℕ → Time) :
    ℕ → Except Fault (ApriltagHypothesis × List Bool)
  | 0 => Except.ok (s, [])
  | k + 1 =>
    (feedSeq s corners stamps k).bind fun r =>
      (r.1.update (corners k) (stamps k)).bind fun u => Except.ok (u.1, u.2 :: r.2)

/-- What holds of the hypothesis `s` and the flags `flags` after `n + 1` calls of `update`
on four corners each, made at the timestamps `stamps 0 .. stamps n` on a hypothesis
constructed with the settings `cfg`: the hypothesis is observed, static and keeps its
settings, it stores four filtered corners, its four filters are static filters whose posterior
variance is that of `contSince flags` predict/correct steps after an initialisation, its last
timestamp is that of the last call and its first timestamp that of the last
(re)initialisation. -/
def SeqInv (cfg : Settings) (stamps : ℕ → Time) (n : ℕ) (s : ApriltagHypothesis)
    (flags : List Bool) : Prop :=
  flags.length = n + 1 ∧ s.first_observation_ = false ∧
    s.dynamics_model_ = DynamicsModel.Static ∧
    s.filtered_corner_points_2d_.length = 4 ∧
    s.process_noise_transl_ = cfg.process_noise_transl ∧
    s.measurement_noise_transl_ = cfg.measurement_noise_transl ∧
    s.min_convergence_time_ = cfg.min_convergence_time ∧
    s.convergence_transl_ = cfg.convergence_transl ∧
    (∀ i : Fin 4,
      IsStaticFilter (s.kalman_filters_ i)
        (iterVar (cfg.process_noise_transl * cfg.process_noise_transl)
          (cfg.measurement_noise_transl * cfg.measurement_noise_transl) (contSince flags))
        (cfg.process_noise_transl * cfg.process_noise_transl)
        (cfg.measurement_noise_transl * cfg.measurement_noise_transl)) ∧
    s.last_observation_timestamp_ = stamps n ∧ contSince flags ≤ n ∧
    s.first_observation_timestamp_ = stamps (n - contSince flags)

end tier4_tag_utils

namespace extrinsic_mapping_based_calibrator

/-- The alignments that the cascade performs, in order, each as the pair of its final
transform and its fitness score: every registrator is run from every initial transform and
from the best result of each earlier registrator. -/
def alignments {T : Type} (identity : T) : List (T → T × ℚ) → List T → List (T × ℚ)
  | [], _ => []
  | registrator :: rest, transforms =>
    transforms.map registrator ++
      alignments identity rest
        (transforms ++ [(registratorLoop registrator transforms (identity, FLT_MAX)).1])

end extrinsic_mapping_based_calibrator

namespace tier4_tag_utils

/-! ## The square-root comparison -/

/-- On a non-negative argument `sqrtGt s t` is the comparison `t < √s` of real numbers. -/
theorem sqrtGt_iff (s t : ℚ) (hs : 0 ≤ s) :
    sqrtGt s t = true ↔ (t : ℝ) < Real.sqrt (s : ℝ) := by
  have hsR : (0 : ℝ) ≤ (s : ℝ) := by exact_mod_cast hs
  unfold sqrtGt
  rw [decide_eq_true_iff]
  constructor
  · rintro ⟨_, h | h⟩
    · have : (t : ℝ) < 0 := by exact_mod_cast h
      exact lt_of_lt_of_le this (Real.sqrt_nonneg _)
    · have h2 : ((t : ℝ)) ^ 2 < (s : ℝ) := by
        have : ((t * t : ℚ) : ℝ) < (s : ℝ) := by exact_mod_cast h
        simpa [pow_two] using this
      exact Real.lt_sqrt_of_sq_lt h2
  · intro h
    refine ⟨hs, ?_⟩
    by_cases ht : t < 0
    · exact Or.inl ht
    · right
      have ht0 : (0 : ℝ) ≤ (t : ℝ) := by exact_mod_cast (not_lt.mp ht)
      have h2 : (t : ℝ) ^ 2 < (s : ℝ) := (Real.lt_sqrt ht0).mp h
      have : ((t * t : ℚ) : ℝ) < (s : ℝ) := by simpa [pow_two] using h2
      exact_mod_cast this

/-- The negated comparison: `sqrtGt s t` fails exactly when `√s ≤ t`. -/
theorem sqrtGt_false_iff (s t : ℚ) (hs : 0 ≤ s) :
    sqrtGt s t = false ↔ Real.sqrt (s : ℝ) ≤ (t : ℝ) := by
  rw [← not_lt, ← sqrtGt_iff s t hs]
  simp

/-! ## Closed forms of the source functions -/

open ApriltagHypothesis

theorem fin4_val_three : ((3 : Fin 4) : ℕ) = 3 := rfl

theorem toState_eq (s : ApriltagHypothesis) (c : Point2d) : s.toState c = ⟨c.x, c.y⟩ := by
  unfold toState
  cases s.dynamics_model_ <;> rfl

theorem initStaticKalmanFilter_eq (s : ApriltagHypothesis) (kf : KalmanFilter) (c : Point2d) :
    s.initStaticKalmanFilter kf c =
      { statePre := Vec2.zeros
        statePost := ⟨c.x, c.y⟩
        transitionMatrix := Mat2.eye
        processNoiseCov := scalarMat (s.process_noise_transl_ * s.process_noise_transl_)
        measurementMatrix := Mat2.eye
        measurementNoiseCov :=
          scalarMat (s.measurement_noise_transl_ * s.measurement_noise_transl_)
        errorCovPre := Mat2.zeros
        errorCovPost := Mat2.eye
        gain := Mat2.zeros } := by
  simp [initStaticKalmanFilter, toState_eq, KalmanFilter.init, Mat2.setIdentity, Mat2.eye,
    scalarMat]

theorem initStaticKalman_eq (s : ApriltagHypothesis) (c0 c1 c2 c3 : Point2d)
    (rest : List Point2d) :
    s.initStaticKalman (c0 :: c1 :: c2 :: c3 :: rest) =
      Except.ok
        { s with
          kalman_filters_ := fun i =>
            s.initStaticKalmanFilter (s.kalman_filters_ i) (![c0, c1, c2, c3] i) } := by
  simp only [initStaticKalman, loop4, initStaticKalmanBody, Except.bind]
  simp only [initStaticKalmanFilter_eq]
  simp only [Fin.val_zero, Fin.val_one, Fin.val_two, fin4_val_three, List.getElem?_cons_zero,
    List.getElem?_cons_succ]
  congr 2
  funext i
  fin_cases i <;> simp [Function.update]

theorem getCenter2d_eq (a b c d : Point2d) :
    getCenter2d [a, b, c, d] = Except.ok (mean4 a b c d) := by
  simp [getCenter2d, mean4, Point2d.zero, Point2d.add, Point2d.divScalar]

theorem getCenter2d_ne (l : List Point2d) (h : l.length ≠ 4) :
    getCenter2d l = Except.error Fault.assertion := by
  unfold getCenter2d
  split
  · simp at h
  · rfl

theorem update_first_eq (s : ApriltagHypothesis) (c0 c1 c2 c3 : Point2d) (rest : List Point2d)
    (stamp : Time) (hf : s.first_observation_ = true)
    (hs : s.dynamics_model_ = DynamicsModel.Static) :
    s.update (c0 :: c1 :: c2 :: c3 :: rest) stamp =
      Except.ok
        ({ s with
            last_observation_timestamp_ := stamp
            latest_corner_points_2d_ := c0 :: c1 :: c2 :: c3 :: rest
            first_observation_ := false
            first_observation_timestamp_ := stamp
            filtered_corner_points_2d_ := c0 :: c1 :: c2 :: c3 :: rest
            kalman_filters_ := fun i =>
              s.initStaticKalmanFilter (s.kalman_filters_ i) (![c0, c1, c2, c3] i) },
          true) := by
  simp only [update, hf, if_true, initKalman, hs, initStaticKalman_eq, Except.bind]
  simp only [initStaticKalmanFilter_eq]

theorem update_reset_eq (s : ApriltagHypothesis) (f0 f1 f2 f3 c0 c1 c2 c3 : Point2d)
    (stamp : Time) (hf : s.first_observation_ = false)
    (hs : s.dynamics_model_ = DynamicsModel.Static)
    (hfilt : s.filtered_corner_points_2d_ = [f0, f1, f2, f3])
    (hjump : normGt ((mean4 f0 f1 f2 f3).sub (mean4 c0 c1 c2 c3)) s.new_hypothesis_transl_
      = true) :
    s.update [c0, c1, c2, c3] stamp =
      Except.ok
        ({ s with
            last_observation_timestamp_ := stamp
            latest_corner_points_2d_ := [c0, c1, c2, c3]
            first_observation_timestamp_ := stamp
            filtered_corner_points_2d_ := [c0, c1, c2, c3]
            kalman_filters_ := fun i =>
              s.initStaticKalmanFilter (s.kalman_filters_ i) (![c0, c1, c2, c3] i) },
          false) := by
  simp only [update, hf, hfilt, getCenter2d_eq, Except.bind, hjump, if_true, initKalman, hs,
    initStaticKalman_eq]
  simp [initStaticKalmanFilter_eq]

theorem updateFilter_eq (s : ApriltagHypothesis) (kf : KalmanFilter) (c : Point2d) :
    s.updateFilter kf c = kf.predict.correct ⟨c.x, c.y⟩ := by
  simp [updateFilter, toState_eq]

theorem update_continuous_eq (s : ApriltagHypothesis) (f0 f1 f2 f3 c0 c1 c2 c3 : Point2d)
    (stamp : Time) (hf : s.first_observation_ = false)
    (hs : s.dynamics_model_ = DynamicsModel.Static)
    (hfilt : s.filtered_corner_points_2d_ = [f0, f1, f2, f3])
    (hjump : normGt ((mean4 f0 f1 f2 f3).sub (mean4 c0 c1 c2 c3)) s.new_hypothesis_transl_
      = false) :
    s.update [c0, c1, c2, c3] stamp =
      Except.ok
        ({ s with
            last_observation_timestamp_ := stamp
            latest_corner_points_2d_ := [c0, c1, c2, c3]
            filtered_corner_points_2d_ :=
              [⟨((s.kalman_filters_ 0).predict.correct ⟨c0.x, c0.y⟩).statePost.v0,
                ((s.kalman_filters_ 0).predict.correct ⟨c0.x, c0.y⟩).statePost.v1⟩,
               ⟨((s.kalman_filters_ 1).predict.correct ⟨c1.x, c1.y⟩).statePost.v0,
                ((s.kalman_filters_ 1).predict.correct ⟨c1.x, c1.y⟩).statePost.v1⟩,
               ⟨((s.kalman_filters_ 2).predict.correct ⟨c2.x, c2.y⟩).statePost.v0,
                ((s.kalman_filters_ 2).predict.correct ⟨c2.x, c2.y⟩).statePost.v1⟩,
               ⟨((s.kalman_filters_ 3).predict.correct ⟨c3.x, c3.y⟩).statePost.v0,
                ((s.kalman_filters_ 3).predict.correct ⟨c3.x, c3.y⟩).statePost.v1⟩]
            kalman_filters_ := fun i =>
              (s.kalman_filters_ i).predict.correct
                ⟨(![c0, c1, c2, c3] i).x, (![c0, c1, c2, c3] i).y⟩ },
          true) := by
  simp only [update, hf, hfilt, getCenter2d_eq, Except.bind, hjump, loop4, updateBody, hs,
    updateFilter_eq, Fin.val_zero, Fin.val_one, Fin.val_two, fin4_val_three,
    List.getElem?_cons_zero, List.getElem?_cons_succ]
  simp [Function.update]
  funext i
  fin_cases i <;> simp

theorem pinv_scalarMat (a : ℚ) : Mat2.pinv (scalarMat a) = scalarMat a⁻¹ := by
  by_cases ha : a = 0
  · subst ha
    simp [Mat2.pinv, scalarMat, Mat2.det, Mat2.zeros]
  · have h2 : a * a ≠ 0 := mul_ne_zero ha ha
    simp only [Mat2.pinv, scalarMat, Mat2.det, mul_zero, sub_zero, ne_eq, h2, not_false_eq_true,
      if_true, neg_zero, zero_div, Mat2.mk.injEq, and_self, and_true, true_and]
    field_simp

theorem predict_correct_static (kf : KalmanFilter) (p qq rr : ℚ) (z : Vec2)
    (h : IsStaticFilter kf p qq rr) :
    kf.predict.correct z =
      { kf with
        statePre := kf.statePost
        errorCovPre := scalarMat (p + qq)
        gain := scalarMat ((p + qq) / (p + qq + rr))
        statePost :=
          ⟨kf.statePost.v0 + (p + qq) / (p + qq + rr) * (z.v0 - kf.statePost.v0),
           kf.statePost.v1 + (p + qq) / (p + qq + rr) * (z.v1 - kf.statePost.v1)⟩
        errorCovPost := scalarMat (nextVar p qq rr) } := by
  rcases kf with ⟨xpre, ⟨x0, x1⟩, F, Q, H, R, Ppre, P, G⟩
  rcases z with ⟨z0, z1⟩
  obtain ⟨hF, hH, hQ, hR, hP⟩ := h
  simp only at hF hH hQ hR hP
  subst hF hH hQ hR hP
  have e1 : (((Mat2.eye.mul (scalarMat p)).mul Mat2.eye.t).add (scalarMat qq)) =
      scalarMat (p + qq) := by
    simp [Mat2.mul, Mat2.add, Mat2.t, Mat2.eye, scalarMat]
  have e2 : ((scalarMat (p + qq)).mul Mat2.eye.t).add (scalarMat rr) =
      scalarMat (p + qq + rr) := by
    simp [Mat2.mul, Mat2.add, Mat2.t, Mat2.eye, scalarMat]
  have e3 : Mat2.eye.mul (scalarMat (p + qq)) = scalarMat (p + qq) := by
    simp [Mat2.mul, Mat2.eye, scalarMat]
  simp only [KalmanFilter.predict, KalmanFilter.correct, e1, e2, e3, Mat2.solve, pinv_scalarMat]
  simp [Mat2.mul, Mat2.sub, Mat2.t, Mat2.eye, scalarMat, Mat2.mulVec, Vec2.add, Vec2.sub,
    nextVar, div_eq_inv_mul]

theorem nextVar_eq (p qq rr : ℚ) (h : p + qq + rr ≠ 0) :
    nextVar p qq rr = (p + qq) * rr / (p + qq + rr) := by
  unfold nextVar
  field_simp
  ring

theorem nextVar_nonneg (p qq rr : ℚ) (hp : 0 ≤ p) (hq : 0 ≤ qq) (hr : 0 ≤ rr) :
    0 ≤ nextVar p qq rr := by
  by_cases h : p + qq + rr = 0
  · have : p + qq = 0 := by linarith
    simp [nextVar, this]
  · rw [nextVar_eq p qq rr h]
    have : 0 < p + qq + rr := lt_of_le_of_ne (by linarith) (Ne.symm h)
    exact div_nonneg (mul_nonneg (by linarith) hr) this.le

theorem nextVar_mono (p p1 qq rr : ℚ) (hp : 0 ≤ p) (hpp : p ≤ p1) (hq : 0 ≤ qq) (hr : 0 ≤ rr) :
    nextVar p qq rr ≤ nextVar p1 qq rr := by
  by_cases h : p + qq + rr = 0
  · have h0 : p + qq = 0 := by linarith
    have : nextVar p qq rr = 0 := by simp [nextVar, h0]
    rw [this]
    exact nextVar_nonneg p1 qq rr (le_trans hp hpp) hq hr
  · have hpos : 0 < p + qq + rr := lt_of_le_of_ne (by linarith) (Ne.symm h)
    have hpos1 : 0 < p1 + qq + rr := by linarith
    rw [nextVar_eq p qq rr h, nextVar_eq p1 qq rr hpos1.ne']
    rw [div_le_div_iff₀ hpos hpos1]
    nlinarith [mul_nonneg hr hr, mul_nonneg (mul_nonneg hr hr) (sub_nonneg.mpr hpp)]

/-! ## The observation update -/

/-- C1: on a hypothesis that has never been updated (static model), `update(C, t0)` with
four corners returns true; afterwards `first_observation_` is false, both timestamps are
`t0`, the latest and the filtered corners are `C`, and the posterior state of filter `i`
is corner `i` of `C`. -/
theorem update_first_observation (s : ApriltagHypothesis) (C : List Point2d) (t0 : Time)
    (hfirst : s.first_observation_ = true)
    (hstatic : s.dynamics_model_ = DynamicsModel.Static) (hC : C.length = 4) :
    ∃ s1, s.update C t0 = Except.ok (s1, true) ∧
      s1.first_observation_ = false ∧
      s1.first_observation_timestamp_ = t0 ∧ s1.last_observation_timestamp_ = t0 ∧
      s1.latest_corner_points_2d_ = C ∧ s1.filtered_corner_points_2d_ = C ∧
      ∀ i : Fin 4,
        C[i.val]? =
          some ⟨(s1.kalman_filters_ i).statePost.v0, (s1.kalman_filters_ i).statePost.v1⟩ := by
  rcases C with _ | ⟨c0, _ | ⟨c1, _ | ⟨c2, _ | ⟨c3, _ | ⟨c4, r⟩⟩⟩⟩⟩ <;> simp at hC
  refine ⟨_, update_first_eq s c0 c1 c2 c3 [] t0 hfirst hstatic, rfl, rfl, rfl, rfl, rfl, ?_⟩
  intro i
  simp only [initStaticKalmanFilter_eq]
  fin_cases i <;> rfl

/-- C1, at a concrete input: a freshly constructed hypothesis and the unit square. -/
theorem update_first_observation_witness :
    ∃ s1,
      (construct 7 ⟨1, 1, 1, 1, 1, 1, 1⟩).update [⟨0, 0⟩, ⟨1, 0⟩, ⟨1, 1⟩, ⟨0, 1⟩] 5 =
        Except.ok (s1, true) ∧
      s1.first_observation_ = false ∧
      s1.first_observation_timestamp_ = 5 ∧ s1.last_observation_timestamp_ = 5 ∧
      s1.latest_corner_points_2d_ = [⟨0, 0⟩, ⟨1, 0⟩, ⟨1, 1⟩, ⟨0, 1⟩] ∧
      s1.filtered_corner_points_2d_ = [⟨0, 0⟩, ⟨1, 0⟩, ⟨1, 1⟩, ⟨0, 1⟩] ∧
      ∀ i : Fin 4,
        ([⟨0, 0⟩, ⟨1, 0⟩, ⟨1, 1⟩, ⟨0, 1⟩] : List Point2d)[i.val]? =
          some ⟨(s1.kalman_filters_ i).statePost.v0, (s1.kalman_filters_ i).statePost.v1⟩ :=
  update_first_observation (construct 7 ⟨1, 1, 1, 1, 1, 1, 1⟩)
    [⟨0, 0⟩, ⟨1, 0⟩, ⟨1, 1⟩, ⟨0, 1⟩] 5 rfl rfl rfl

theorem normGt_sub_iff (p q : Point2d) (t : ℚ) :
    normGt (p.sub q) t = true ↔ (t : ℝ) < Real.sqrt ((distSq p q : ℚ) : ℝ) := by
  have h : (p.sub q).x * (p.sub q).x + (p.sub q).y * (p.sub q).y = distSq p q := by
    simp only [Point2d.sub, distSq]
    ring
  have hs : 0 ≤ distSq p q := by
    unfold distSq
    positivity
  rw [normGt, h]
  exact sqrtGt_iff _ _ hs

theorem normGt_sub_false_iff (p q : Point2d) (t : ℚ) :
    normGt (p.sub q) t = false ↔ Real.sqrt ((distSq p q : ℚ) : ℝ) ≤ (t : ℝ) := by
  rw [← not_lt, ← normGt_sub_iff]
  simp

/-- C2: on an already-observed hypothesis (static model) whose filtered corners are
`f0 .. f3`, an observation `c0 .. c3` whose centroid lies farther from the filtered centroid
than the new-hypothesis threshold makes `update` return false; afterwards the filtered corners
are the raw observation, `first_observation_timestamp_` is the stamp, and every filter is
seeded again: posterior state the new corner, posterior covariance the identity. -/
theorem update_hard_reset (s : ApriltagHypothesis) (f0 f1 f2 f3 c0 c1 c2 c3 : Point2d)
    (stamp : Time) (hobs : s.first_observation_ = false)
    (hstatic : s.dynamics_model_ = DynamicsModel.Static)
    (hfilt : s.filtered_corner_points_2d_ = [f0, f1, f2, f3])
    (hjump : (s.new_hypothesis_transl_ : ℝ) <
      Real.sqrt ((distSq (mean4 f0 f1 f2 f3) (mean4 c0 c1 c2 c3) : ℚ) : ℝ)) :
    ∃ s1, s.update [c0, c1, c2, c3] stamp = Except.ok (s1, false) ∧
      s1.filtered_corner_points_2d_ = [c0, c1, c2, c3] ∧
      s1.first_observation_timestamp_ = stamp ∧
      ∀ i : Fin 4,
        (s1.kalman_filters_ i).statePost = ⟨(![c0, c1, c2, c3] i).x, (![c0, c1, c2, c3] i).y⟩ ∧
        (s1.kalman_filters_ i).errorCovPost = Mat2.eye := by
  have hj := (normGt_sub_iff _ _ _).mpr hjump
  refine ⟨_, update_reset_eq s f0 f1 f2 f3 c0 c1 c2 c3 stamp hobs hstatic hfilt hj, rfl, rfl, ?_⟩
  intro i
  simp only [initStaticKalmanFilter_eq, and_self]

/-- C2, at a concrete input: filtered unit square at the origin, observation shifted by 10,
threshold 1. -/
theorem update_hard_reset_witness :
    ∃ s1,
      ({ construct 7 ⟨1, 1, 1, 1, 1, 1, 1⟩ with
          first_observation_ := false
          filtered_corner_points_2d_ := [⟨0, 0⟩, ⟨1, 0⟩, ⟨1, 1⟩, ⟨0, 1⟩] }).update
        [⟨10, 0⟩, ⟨11, 0⟩, ⟨11, 1⟩, ⟨10, 1⟩] 9 = Except.ok (s1, false) ∧
      s1.filtered_corner_points_2d_ = [⟨10, 0⟩, ⟨11, 0⟩, ⟨11, 1⟩, ⟨10, 1⟩] ∧
      s1.first_observation_timestamp_ = 9 ∧
      ∀ i : Fin 4,
        (s1.kalman_filters_ i).statePost =
          ⟨((![⟨10, 0⟩, ⟨11, 0⟩, ⟨11, 1⟩, ⟨10, 1⟩] : Fin 4 → Point2d) i).x,
           ((![⟨10, 0⟩, ⟨11, 0⟩, ⟨11, 1⟩, ⟨10, 1⟩] : Fin 4 → Point2d) i).y⟩ ∧
        (s1.kalman_filters_ i).errorCovPost = Mat2.eye :=
  update_hard_reset
    { construct 7 ⟨1, 1, 1, 1, 1, 1, 1⟩ with
      first_observation_ := false
      filtered_corner_points_2d_ := [⟨0, 0⟩, ⟨1, 0⟩, ⟨1, 1⟩, ⟨0, 1⟩] }
    ⟨0, 0⟩ ⟨1, 0⟩ ⟨1, 1⟩ ⟨0, 1⟩ ⟨10, 0⟩ ⟨11, 0⟩ ⟨11, 1⟩ ⟨10, 1⟩ 9 rfl rfl rfl
    (by
      have h : distSq (mean4 ⟨0, 0⟩ ⟨1, 0⟩ ⟨1, 1⟩ ⟨0, 1⟩) (mean4 ⟨10, 0⟩ ⟨11, 0⟩ ⟨11, 1⟩ ⟨10, 1⟩)
          = 100 := by
        norm_num [distSq, mean4]
      rw [h]
      simp only [construct]
      rw [Real.lt_sqrt (by norm_num)]
      norm_num)

/-- C3: on an already-observed hypothesis (static model) whose filtered corners are
`f0 .. f3`, `update` on four corners `c0 .. c3` returns a flag, and the flag is true exactly
when the Euclidean distance between the arithmetic means of the filtered corners held before
the call and of the new corners is at most the new-hypothesis threshold.  Whenever the distance
is at most the threshold (equality included) every filter has gone through predict and
correct with its corner, and the filtered corners are the resulting posterior states. -/
theorem update_continuity_flag (s : ApriltagHypothesis) (f0 f1 f2 f3 c0 c1 c2 c3 : Point2d)
    (stamp : Time) (hobs : s.first_observation_ = false)
    (hstatic : s.dynamics_model_ = DynamicsModel.Static)
    (hfilt : s.filtered_corner_points_2d_ = [f0, f1, f2, f3]) :
    ∃ s1 b, s.update [c0, c1, c2, c3] stamp = Except.ok (s1, b) ∧
      (b = true ↔
        Real.sqrt ((distSq (mean4 f0 f1 f2 f3) (mean4 c0 c1 c2 c3) : ℚ) : ℝ) ≤
          (s.new_hypothesis_transl_ : ℝ)) ∧
      (Real.sqrt ((distSq (mean4 f0 f1 f2 f3) (mean4 c0 c1 c2 c3) : ℚ) : ℝ) ≤
          (s.new_hypothesis_transl_ : ℝ) →
        (∀ i : Fin 4,
          s1.kalman_filters_ i =
            ((s.kalman_filters_ i).predict).correct
              (s.toState (![c0, c1, c2, c3] i))) ∧
        s1.filtered_corner_points_2d_ =
          List.ofFn fun i : Fin 4 =>
            (⟨(s1.kalman_filters_ i).statePost.v0, (s1.kalman_filters_ i).statePost.v1⟩ :
              Point2d)) := by
  cases hj : normGt ((mean4 f0 f1 f2 f3).sub (mean4 c0 c1 c2 c3)) s.new_hypothesis_transl_
  · have hle := (normGt_sub_false_iff _ _ _).mp hj
    refine ⟨_, true, update_continuous_eq s f0 f1 f2 f3 c0 c1 c2 c3 stamp hobs hstatic hfilt hj,
      ?_, ?_⟩
    · simp [hle]
    · intro _
      refine ⟨fun i => ?_, ?_⟩
      · simp only [toState_eq]
      · simp [List.ofFn_succ, show (Fin.succ 2 : Fin 4) = 3 from rfl]
  · have hlt := (normGt_sub_iff _ _ _).mp hj
    refine ⟨_, false, update_reset_eq s f0 f1 f2 f3 c0 c1 c2 c3 stamp hobs hstatic hfilt hj,
      ?_, ?_⟩
    · simp [not_le.mpr hlt]
    · intro hle
      exact absurd hle (not_le.mpr hlt)

/-- C3, at a concrete input: the observation equals the filtered unit square, so the distance
is zero and equals the threshold 0. -/
theorem update_continuity_flag_witness :
    ∃ s1 b,
      ({ construct 7 ⟨1, 1, 1, 0, 1, 1, 1⟩ with
          first_observation_ := false
          filtered_corner_points_2d_ := [⟨0, 0⟩, ⟨1, 0⟩, ⟨1, 1⟩, ⟨0, 1⟩] }).update
        [⟨0, 0⟩, ⟨1, 0⟩, ⟨1, 1⟩, ⟨0, 1⟩] 9 = Except.ok (s1, b) ∧
      (b = true ↔
        Real.sqrt ((distSq (mean4 ⟨0, 0⟩ ⟨1, 0⟩ ⟨1, 1⟩ ⟨0, 1⟩)
            (mean4 ⟨0, 0⟩ ⟨1, 0⟩ ⟨1, 1⟩ ⟨0, 1⟩) : ℚ) : ℝ) ≤
          (({ construct 7 ⟨1, 1, 1, 0, 1, 1, 1⟩ with
              first_observation_ := false
              filtered_corner_points_2d_ :=
                [⟨0, 0⟩, ⟨1, 0⟩, ⟨1, 1⟩, ⟨0, 1⟩] }).new_hypothesis_transl_ : ℝ)) :=
  let ⟨s1, b, h1, h2, _⟩ :=
    update_continuity_flag
      { construct 7 ⟨1, 1, 1, 0, 1, 1, 1⟩ with
        first_observation_ := false
        filtered_corner_points_2d_ := [⟨0, 0⟩, ⟨1, 0⟩, ⟨1, 1⟩, ⟨0, 1⟩] }
      ⟨0, 0⟩ ⟨1, 0⟩ ⟨1, 1⟩ ⟨0, 1⟩ ⟨0, 0⟩ ⟨1, 0⟩ ⟨1, 1⟩ ⟨0, 1⟩ 9 rfl rfl rfl
  ⟨s1, b, h1, h2⟩

/-! ## The liveness probe and the convergence test -/

/-- C4: the liveness probe `update(stamp)` returns false exactly when the time elapsed since
`last_observation_timestamp_` is at least `max_no_observation_time_`; at the boundary
(elapsed time equal to the maximum) it returns false. -/
theorem updateStamp_false_iff (s : ApriltagHypothesis) (stamp : Time) :
    s.updateStamp stamp = false ↔
      s.max_no_observation_time_ ≤ seconds (stamp - s.last_observation_timestamp_) := by
  simp [updateStamp]

/-- C5: a hypothesis that has never been observed, or whose elapsed tracking time is below
`min_convergence_time_`, is not converged, whatever its filters hold. -/
theorem converged_false_of_early (s : ApriltagHypothesis)
    (h : s.first_observation_ = true ∨
      seconds (s.last_observation_timestamp_ - s.first_observation_timestamp_) <
        s.min_convergence_time_) :
    s.converged = false := by
  unfold converged
  rcases h with h | h
  · simp [h]
  · simp [h]

/-- C5, at a concrete input: an observed hypothesis with elapsed time 0, minimum time 1 and
all four posterior covariances zero. -/
theorem converged_false_of_early_witness :
    (∀ i : Fin 4,
      (({ construct 7 ⟨1, 1, 1, 1, 1, 1, 1⟩ with first_observation_ := false }).kalman_filters_
        i).errorCovPost = Mat2.zeros) ∧
    ({ construct 7 ⟨1, 1, 1, 1, 1, 1, 1⟩ with first_observation_ := false }).converged = false :=
  ⟨fun _ => rfl,
    converged_false_of_early { construct 7 ⟨1, 1, 1, 1, 1, 1, 1⟩ with first_observation_ := false }
      (Or.inr (by norm_num [construct, seconds]))⟩

theorem convergedLoop_eq_true_iff (s : ApriltagHypothesis) (l : List (Fin 4)) :
    s.convergedLoop l = true ↔
      ∀ i ∈ l,
        sqrtGt (max (s.kalman_filters_ i).errorCovPost.m00 (s.kalman_filters_ i).errorCovPost.m11)
          s.convergence_transl_ = false := by
  induction l with
  | nil => simp [convergedLoop]
  | cons i rest ih =>
    simp only [convergedLoop, List.mem_cons, forall_eq_or_imp]
    cases h : sqrtGt (max (s.kalman_filters_ i).errorCovPost.m00
        (s.kalman_filters_ i).errorCovPost.m11) s.convergence_transl_
    · simpa using ih
    · simp

theorem fin4_mem_all (i : Fin 4) : i ∈ ([0, 1, 2, 3] : List (Fin 4)) := by
  fin_cases i <;> simp

/-- Past the two guards, `converged()` is true exactly when no filter exceeds the threshold. -/
theorem converged_eq_true_iff (s : ApriltagHypothesis) :
    s.converged = true ↔
      s.first_observation_ = false ∧
      s.min_convergence_time_ ≤
        seconds (s.last_observation_timestamp_ - s.first_observation_timestamp_) ∧
      ∀ i : Fin 4,
        sqrtGt (max (s.kalman_filters_ i).errorCovPost.m00 (s.kalman_filters_ i).errorCovPost.m11)
          s.convergence_transl_ = false := by
  unfold converged
  by_cases h1 : s.first_observation_ = true
  · simp [h1]
  · by_cases h2 : seconds (s.last_observation_timestamp_ - s.first_observation_timestamp_) <
        s.min_convergence_time_
    · simp [h2, not_le.mpr h2]
    · have h1f : s.first_observation_ = false := by simpa using h1
      simp only [h1f, h2, Bool.false_or, decide_False, Bool.false_eq_true, if_false, true_and,
        not_lt.mp h2, convergedLoop_eq_true_iff]
      constructor
      · intro h i
        exact h i (fin4_mem_all i)
      · intro h i _
        exact h i

theorem sqrtGt_one_false_iff (t : ℚ) : sqrtGt 1 t = false ↔ 1 ≤ t := by
  unfold sqrtGt
  rw [decide_eq_false_iff_not]
  constructor
  · intro h
    by_contra hlt
    apply h
    refine ⟨by norm_num, ?_⟩
    by_cases h0 : t < 0
    · exact Or.inl h0
    · right
      nlinarith [not_lt.mp h0, not_le.mp hlt]
  · rintro h ⟨_, h1 | h1⟩
    · linarith
    · nlinarith

/-- C7, refuted as stated: with minimum convergence time 0 and convergence threshold 1 the
hypothesis is converged right after its first update. -/
theorem converged_after_first_update_counterexample :
    ∃ s1,
      (construct 7 ⟨1, 0, 1, 1, 1, 1, 1⟩).update [⟨0, 0⟩, ⟨1, 0⟩, ⟨1, 1⟩, ⟨0, 1⟩] 5 =
        Except.ok (s1, true) ∧
      s1.converged = true := by
  refine ⟨_, update_first_eq _ ⟨0, 0⟩ ⟨1, 0⟩ ⟨1, 1⟩ ⟨0, 1⟩ [] 5 rfl rfl, ?_⟩
  rw [converged_eq_true_iff]
  refine ⟨rfl, by norm_num [construct, seconds], fun i => ?_⟩
  simp only [initStaticKalmanFilter_eq, Mat2.eye, max_self, construct]
  rw [sqrtGt_one_false_iff]

/-- C7, amended: right after the first `update(C, t0)` of a freshly constructed hypothesis,
`converged()` is false exactly when the minimum convergence time is positive or the
convergence threshold is below 1 (the square root of the identity covariance set by the
initialisation). -/
theorem converged_after_first_update (id : ℤ) (cfg : Settings) (c0 c1 c2 c3 : Point2d)
    (t0 : Time) :
    ∃ s1,
      (construct id cfg).update [c0, c1, c2, c3] t0 = Except.ok (s1, true) ∧
      (s1.converged = false ↔ 0 < cfg.min_convergence_time ∨ cfg.convergence_transl < 1) := by
  refine ⟨_, update_first_eq _ c0 c1 c2 c3 [] t0 rfl rfl, ?_⟩
  rw [← Bool.not_eq_true, converged_eq_true_iff]
  simp only [initStaticKalmanFilter_eq, Mat2.eye, max_self, construct, sub_self, seconds,
    sqrtGt_one_false_iff, true_and, forall_const]
  constructor
  · intro h
    by_contra hc
    push_neg at hc
    exact h ⟨by simpa using hc.1, hc.2⟩
  · rintro (h | h) ⟨h1, h2⟩
    · simp at h1
      linarith
    · linarith

/-! ## Calls of `update` that return -/

theorem length_eq_four {α : Type} (l : List α) (h : l.length = 4) :
    ∃ a b c d, l = [a, b, c, d] := by
  rcases l with _ | ⟨a, _ | ⟨b, _ | ⟨c, _ | ⟨d, _ | ⟨e, r⟩⟩⟩⟩⟩ <;> simp at h
  exact ⟨a, b, c, d, rfl⟩

theorem getCenter2d_ok (l : List Point2d) (p : Point2d) (h : getCenter2d l = Except.ok p) :
    ∃ a b c d, l = [a, b, c, d] := by
  by_cases hl : l.length = 4
  · exact length_eq_four l hl
  · rw [getCenter2d_ne l hl] at h
    cases h

theorem initStaticKalman_ok (s s1 : ApriltagHypothesis) (corners : List Point2d)
    (h : s.initStaticKalman corners = Except.ok s1) :
    ∃ c0 c1 c2 c3 rest, corners = c0 :: c1 :: c2 :: c3 :: rest := by
  rcases corners with _ | ⟨c0, _ | ⟨c1, _ | ⟨c2, _ | ⟨c3, rest⟩⟩⟩⟩
  · simp [initStaticKalman, loop4, initStaticKalmanBody, Except.bind] at h
  · simp [initStaticKalman, loop4, initStaticKalmanBody, Except.bind] at h
  · simp [initStaticKalman, loop4, initStaticKalmanBody, Except.bind] at h
  · simp [initStaticKalman, loop4, initStaticKalmanBody, Except.bind, fin4_val_three] at h
  · exact ⟨c0, c1, c2, c3, rest, rfl⟩

/-- A call of `update` returns only under the static model, on at least four corners if it
is the first observation, and otherwise on exactly four corners with exactly four filtered
corners stored. -/
theorem update_ok_cases (s s1 : ApriltagHypothesis) (corners : List Point2d) (stamp : Time)
    (b : Bool) (h : s.update corners stamp = Except.ok (s1, b)) :
    s.dynamics_model_ = DynamicsModel.Static ∧
      ((s.first_observation_ = true ∧
          ∃ c0 c1 c2 c3 rest, corners = c0 :: c1 :: c2 :: c3 :: rest) ∨
        (s.first_observation_ = false ∧
          ∃ f0 f1 f2 f3 c0 c1 c2 c3,
            s.filtered_corner_points_2d_ = [f0, f1, f2, f3] ∧ corners = [c0, c1, c2, c3])) := by
  cases hf : s.first_observation_
  · -- a later observation
    simp only [update, hf, Bool.false_eq_true, if_false] at h
    cases hfc : getCenter2d s.filtered_corner_points_2d_ with
    | error e => simp [hfc, Except.bind] at h
    | ok fc =>
      cases hcc : getCenter2d corners with
      | error e => simp [hfc, hcc, Except.bind] at h
      | ok cc =>
        obtain ⟨f0, f1, f2, f3, hF⟩ := getCenter2d_ok _ _ hfc
        obtain ⟨c0, c1, c2, c3, hC⟩ := getCenter2d_ok _ _ hcc
        have hstatic : s.dynamics_model_ = DynamicsModel.Static := by
          cases hd : s.dynamics_model_
          · rfl
          · exfalso
            simp only [hfc, hcc, Except.bind, initKalman, hd, loop4, updateBody] at h
            split at h <;> simp at h
        exact ⟨hstatic, Or.inr ⟨rfl, f0, f1, f2, f3, c0, c1, c2, c3, hF, hC⟩⟩
  · -- the first observation
    simp only [update, hf, if_true] at h
    cases hd : s.dynamics_model_
    · rcases corners with _ | ⟨c0, _ | ⟨c1, _ | ⟨c2, _ | ⟨c3, rest⟩⟩⟩⟩
      · simp [initKalman, hd, initStaticKalman, loop4, initStaticKalmanBody, Except.bind] at h
      · simp [initKalman, hd, initStaticKalman, loop4, initStaticKalmanBody, Except.bind] at h
      · simp [initKalman, hd, initStaticKalman, loop4, initStaticKalmanBody, Except.bind] at h
      · simp [initKalman, hd, initStaticKalman, loop4, initStaticKalmanBody, Except.bind,
          fin4_val_three] at h
      · exact ⟨rfl, Or.inl ⟨rfl, c0, c1, c2, c3, rest, rfl⟩⟩
    · simp [initKalman, hd, Except.bind] at h

theorem initStaticKalmanFilter_isStatic (s : ApriltagHypothesis) (kf : KalmanFilter)
    (c : Point2d) :
    IsStaticFilter (s.initStaticKalmanFilter kf c) 1
      (s.process_noise_transl_ * s.process_noise_transl_)
      (s.measurement_noise_transl_ * s.measurement_noise_transl_) := by
  rw [initStaticKalmanFilter_eq]
  exact ⟨rfl, rfl, rfl, rfl, rfl⟩

theorem predict_correct_isStatic (kf : KalmanFilter) (p qq rr : ℚ) (z : Vec2)
    (h : IsStaticFilter kf p qq rr) :
    IsStaticFilter (kf.predict.correct z) (nextVar p qq rr) qq rr := by
  rw [predict_correct_static kf p qq rr z h]
  obtain ⟨hF, hH, hQ, hR, _⟩ := h
  exact ⟨hF, hH, hQ, hR, rfl⟩

/-- A call of `update` that returns leaves an observed hypothesis whose four filters are
static filters with a common non-negative posterior variance. -/
theorem update_staticBank (s s1 : ApriltagHypothesis) (corners : List Point2d) (stamp : Time)
    (b : Bool) (h : s.update corners stamp = Except.ok (s1, b))
    (hinv : s.first_observation_ = false → StaticBank s) :
    s1.first_observation_ = false ∧ StaticBank s1 := by
  obtain ⟨hstatic, hcase⟩ := update_ok_cases s s1 corners stamp b h
  have hseed : ∀ (t : ApriltagHypothesis) (c : Fin 4 → Point2d),
      (∀ i, t.kalman_filters_ i = s.initStaticKalmanFilter (s.kalman_filters_ i) (c i)) →
      StaticBank t := by
    intro t c ht
    refine ⟨1, s.process_noise_transl_ * s.process_noise_transl_,
      s.measurement_noise_transl_ * s.measurement_noise_transl_, zero_le_one,
      mul_self_nonneg _, mul_self_nonneg _, fun i => ?_⟩
    rw [ht i]
    exact initStaticKalmanFilter_isStatic s _ _
  rcases hcase with ⟨hf, c0, c1, c2, c3, rest, hC⟩ | ⟨hf, f0, f1, f2, f3, c0, c1, c2, c3, hF, hC⟩
  · subst hC
    rw [update_first_eq s c0 c1 c2 c3 rest stamp hf hstatic] at h
    injection h with h
    injection h with h1 _
    subst h1
    exact ⟨rfl, hseed _ ![c0, c1, c2, c3] (fun _ => rfl)⟩
  · subst hC
    cases hj : normGt ((mean4 f0 f1 f2 f3).sub (mean4 c0 c1 c2 c3)) s.new_hypothesis_transl_
    · rw [update_continuous_eq s f0 f1 f2 f3 c0 c1 c2 c3 stamp hf hstatic hF hj] at h
      injection h with h
      injection h with h1 _
      subst h1
      obtain ⟨p, qq, rr, hp, hq, hr, hall⟩ := hinv hf
      exact ⟨hf, nextVar p qq rr, qq, rr, nextVar_nonneg p qq rr hp hq hr, hq, hr,
        fun i => predict_correct_isStatic _ p qq rr _ (hall i)⟩
    · rw [update_reset_eq s f0 f1 f2 f3 c0 c1 c2 c3 stamp hf hstatic hF hj] at h
      injection h with h
      injection h with h1 _
      subst h1
      exact ⟨hf, hseed _ ![c0, c1, c2, c3] (fun _ => rfl)⟩

/-- Every observed hypothesis that a caller can obtain has four static filters with a common
non-negative posterior variance. -/
theorem reachable_staticBank (s : ApriltagHypothesis) (h : Reachable s) :
    s.first_observation_ = false → StaticBank s := by
  induction h with
  | construct id cfg => intro h; simp [construct] at h
  | update s s1 corners stamp b _ hu ih => exact fun _ => (update_staticBank s s1 corners stamp b hu ih).2
  | setDynamicsModel s m _ ih => exact ih
  | setMinConvergenceTime s v _ ih => exact ih
  | setMaxConvergenceThreshold s v _ ih => exact ih
  | setNewHypothesisThreshold s v _ ih => exact ih
  | setMaxNoObservationTime s v _ ih => exact ih
  | setMeasurementNoise s v _ ih => exact ih
  | setProcessNoise s v _ ih => exact ih
  | setTagSize s v _ ih => exact ih

/-- Every observed hypothesis that a caller can obtain has non-negative positional variances
in all four filters. -/
theorem reachable_variance_nonneg (s : ApriltagHypothesis) (hr : Reachable s)
    (hobs : s.first_observation_ = false) (i : Fin 4) :
    0 ≤ max (s.kalman_filters_ i).errorCovPost.m00 (s.kalman_filters_ i).errorCovPost.m11 := by
  obtain ⟨p, qq, rr, hp, _, _, hall⟩ := reachable_staticBank s hr hobs
  obtain ⟨_, _, _, _, hP⟩ := hall i
  rw [hP]
  simpa [scalarMat] using hp

/-- C6: for every observed hypothesis whose elapsed tracking time is at least
`min_convergence_time_`, whatever covariances its four filters hold (each with a non-negative
larger positional variance, so that its square root exists), `converged()` is true exactly
when every one of the four filters has `sqrt(max(P00, P11)) <= convergence_transl_` for its
own posterior covariance `P`; one filter above the threshold makes it false. -/
theorem converged_iff_all_within (s : ApriltagHypothesis)
    (hobs : s.first_observation_ = false)
    (ht : s.min_convergence_time_ ≤
      seconds (s.last_observation_timestamp_ - s.first_observation_timestamp_))
    (hvar : ∀ i : Fin 4,
      0 ≤ max (s.kalman_filters_ i).errorCovPost.m00 (s.kalman_filters_ i).errorCovPost.m11) :
    s.converged = true ↔
      ∀ i : Fin 4,
        Real.sqrt (max (((s.kalman_filters_ i).errorCovPost.m00 : ℚ) : ℝ)
            (((s.kalman_filters_ i).errorCovPost.m11 : ℚ) : ℝ)) ≤
          (s.convergence_transl_ : ℝ) := by
  rw [converged_eq_true_iff]
  simp only [hobs, ht, true_and]
  refine forall_congr' fun i => ?_
  rw [sqrtGt_false_iff _ _ (hvar i), Rat.cast_max]

/-- C6, at a concrete input: threshold 1, minimum convergence time 0, filters 0, 1 and 2 with
covariance `diag(1/4, 1/4)` and filter 3 with covariance `diag(1/4, 4)`: the single corner 3,
through its entry `P11` alone, exceeds the threshold and `converged()` is false. -/
theorem converged_iff_all_within_witness :
    ∃ s : ApriltagHypothesis, s.first_observation_ = false ∧
      s.min_convergence_time_ ≤
        seconds (s.last_observation_timestamp_ - s.first_observation_timestamp_) ∧
      (s.kalman_filters_ 0).errorCovPost = ⟨1 / 4, 0, 0, 1 / 4⟩ ∧
      (s.kalman_filters_ 3).errorCovPost = ⟨1 / 4, 0, 0, 4⟩ ∧
      s.convergence_transl_ = 1 ∧
      s.converged = false ∧
      (s.converged = true ↔
        ∀ i : Fin 4,
          Real.sqrt (max (((s.kalman_filters_ i).errorCovPost.m00 : ℚ) : ℝ)
              (((s.kalman_filters_ i).errorCovPost.m11 : ℚ) : ℝ)) ≤
            (s.convergence_transl_ : ℝ)) := by
  have ht : (0 : ℚ) ≤ seconds ((0 : ℤ) - 0) := by norm_num [seconds]
  refine ⟨{ construct 7 ⟨1, 0, 1, 1, 1, 1, 1⟩ with
      first_observation_ := false
      kalman_filters_ := fun i =>
        { KalmanFilter.empty with
          errorCovPost := if i = 3 then ⟨1 / 4, 0, 0, 4⟩ else ⟨1 / 4, 0, 0, 1 / 4⟩ } },
    rfl, ht, ?_, ?_, rfl, ?_,
    converged_iff_all_within _ rfl ht (fun i => ?_)⟩
  · simp
  · simp
  · rw [← Bool.not_eq_true, converged_eq_true_iff]
    intro h
    have h3 := h.2.2 3
    norm_num [sqrtGt, construct] at h3
  · refine le_max_of_le_left ?_
    dsimp only
    split <;> norm_num

/-! ## Feeding the same observation repeatedly -/

theorem normGt_self (p : Point2d) (t : ℚ) : normGt (p.sub p) t = decide (t < 0) := by
  simp only [normGt, sqrtGt, Point2d.sub, sub_self, mul_zero, add_zero, le_refl, true_and]
  by_cases h : t < 0
  · simp [h]
  · have : ¬ t * t < 0 := not_lt.mpr (mul_self_nonneg t)
    simp [h, this]

/-- The first call on a fresh hypothesis establishes the invariant with variance 1. -/
theorem update_construct_fed (id : ℤ) (cfg : Settings) (c : Fin 4 → Point2d) (t0 : Time) :
    ∃ s1, (construct id cfg).update [c 0, c 1, c 2, c 3] t0 = Except.ok (s1, true) ∧
      FedInv cfg c s1 1 ∧ s1.last_observation_timestamp_ = t0 ∧
      s1.first_observation_timestamp_ = t0 := by
  refine ⟨_, update_first_eq _ (c 0) (c 1) (c 2) (c 3) [] t0 rfl rfl, ?_, rfl, rfl⟩
  refine ⟨rfl, rfl, rfl, rfl, rfl, rfl, rfl, rfl, fun i => ?_⟩
  refine ⟨initStaticKalmanFilter_isStatic _ _ _, ?_⟩
  simp only [initStaticKalmanFilter_eq]
  fin_cases i <;> rfl

/-- A further call with the same corners: a re-initialisation when the threshold is
negative, one predict/correct step that keeps the corners otherwise. -/
theorem update_fed_step (cfg : Settings) (c : Fin 4 → Point2d) (s : ApriltagHypothesis)
    (p : ℚ) (t : Time) (h : FedInv cfg c s p) :
    ∃ s1 b, s.update [c 0, c 1, c 2, c 3] t = Except.ok (s1, b) ∧
      s1.last_observation_timestamp_ = t ∧
      ((cfg.new_hypothesis_transl < 0 ∧ FedInv cfg c s1 1 ∧
          s1.first_observation_timestamp_ = t) ∨
        (0 ≤ cfg.new_hypothesis_transl ∧
          FedInv cfg c s1 (nextVar p (cfg.process_noise_transl * cfg.process_noise_transl)
            (cfg.measurement_noise_transl * cfg.measurement_noise_transl)) ∧
          s1.first_observation_timestamp_ = s.first_observation_timestamp_)) := by
  obtain ⟨hf, hs, hF, hthr, hq, hr, hmin, hconv, hk⟩ := h
  have hn := normGt_self (mean4 (c 0) (c 1) (c 2) (c 3)) s.new_hypothesis_transl_
  by_cases hneg : cfg.new_hypothesis_transl < 0
  · have hj : normGt ((mean4 (c 0) (c 1) (c 2) (c 3)).sub (mean4 (c 0) (c 1) (c 2) (c 3)))
        s.new_hypothesis_transl_ = true := by
      rw [hn, hthr]
      simpa using hneg
    refine ⟨_, false, update_reset_eq s _ _ _ _ _ _ _ _ t hf hs hF hj, rfl,
      Or.inl ⟨hneg, ?_, rfl⟩⟩
    refine ⟨hf, hs, rfl, hthr, hq, hr, hmin, hconv, fun i => ?_⟩
    have h1 := initStaticKalmanFilter_isStatic s (s.kalman_filters_ i)
      (![c 0, c 1, c 2, c 3] i)
    rw [hq, hr] at h1
    refine ⟨h1, ?_⟩
    simp only [initStaticKalmanFilter_eq]
    fin_cases i <;> rfl
  · have hj : normGt ((mean4 (c 0) (c 1) (c 2) (c 3)).sub (mean4 (c 0) (c 1) (c 2) (c 3)))
        s.new_hypothesis_transl_ = false := by
      rw [hn, hthr]
      simpa using hneg
    have hcorner : ∀ i : Fin 4, ![c 0, c 1, c 2, c 3] i = c i := by
      intro i
      fin_cases i <;> rfl
    have hpost : ∀ i : Fin 4,
        ((s.kalman_filters_ i).predict.correct ⟨(c i).x, (c i).y⟩).statePost =
          ⟨(c i).x, (c i).y⟩ := by
      intro i
      rw [predict_correct_static _ _ _ _ _ (hk i).1]
      simp [(hk i).2]
    refine ⟨_, true, update_continuous_eq s _ _ _ _ _ _ _ _ t hf hs hF hj, rfl,
      Or.inr ⟨not_lt.mp hneg, ?_, rfl⟩⟩
    refine ⟨hf, hs, ?_, hthr, hq, hr, hmin, hconv, fun i => ?_⟩
    · simp only [hpost]
    · simp only [hcorner]
      exact ⟨predict_correct_isStatic _ _ _ _ _ (hk i).1, hpost i⟩

/-- The hypothesis after `n + 1` calls with the same corners on a fresh hypothesis: the
calls all return, the invariant holds with the variance `fedVar .. n`, the last timestamp is
that of the last call, and the first timestamp is that of the last call when every call
re-initialises and that of the first call otherwise. -/
theorem feedSame_fed (id : ℤ) (cfg : Settings) (c : Fin 4 → Point2d) (stamps : ℕ → Time)
    (n : ℕ) :
    ∃ s, feedSame (construct id cfg) [c 0, c 1, c 2, c 3] stamps (n + 1) = Except.ok s ∧
      FedInv cfg c s
        (fedVar (cfg.process_noise_transl * cfg.process_noise_transl)
          (cfg.measurement_noise_transl * cfg.measurement_noise_transl)
          (decide (cfg.new_hypothesis_transl < 0)) n) ∧
      s.last_observation_timestamp_ = stamps n ∧
      s.first_observation_timestamp_ =
        (if cfg.new_hypothesis_transl < 0 then stamps n else stamps 0) := by
  induction n with
  | zero =>
    obtain ⟨s1, hu, hinv, hl, hfst⟩ := update_construct_fed id cfg c (stamps 0)
    refine ⟨s1, ?_, hinv, hl, ?_⟩
    · simp [feedSame, Except.bind, hu]
    · simp [hfst]
  | succ n ih =>
    obtain ⟨s, hs, hinv, _, hfst⟩ := ih
    obtain ⟨s1, b, hu, hl1, hcase⟩ := update_fed_step cfg c s _ (stamps (n + 1)) hinv
    refine ⟨s1, ?_, ?_, hl1, ?_⟩
    · rw [feedSame, hs]
      simp [Except.bind, hu]
    · rcases hcase with ⟨hneg, hi, _⟩ | ⟨hpos, hi, _⟩
      · simpa [fedVar, hneg] using hi
      · simpa [fedVar, not_lt.mpr hpos] using hi
    · rcases hcase with ⟨hneg, _, hf1⟩ | ⟨hpos, _, hf1⟩
      · simp [hneg, hf1]
      · rw [hf1, hfst]
        simp [not_lt.mpr hpos]

theorem fedVar_nonneg (qq rr : ℚ) (reset : Bool) (hq : 0 ≤ qq) (hr : 0 ≤ rr) (n : ℕ) :
    0 ≤ fedVar qq rr reset n := by
  induction n with
  | zero => simp [fedVar]
  | succ n ih =>
    cases reset
    · simpa [fedVar] using nextVar_nonneg _ qq rr ih hq hr
    · simp [fedVar]

theorem nextVar_one_le (qq rr : ℚ) (hq : 0 ≤ qq) (hr : 0 ≤ rr) (hn : qq * (rr - 1) ≤ 1) :
    nextVar 1 qq rr ≤ 1 := by
  have hpos : 0 < 1 + qq + rr := by linarith
  rw [nextVar_eq 1 qq rr hpos.ne', div_le_one hpos]
  nlinarith

theorem fedVar_succ_le (qq rr : ℚ) (reset : Bool) (hq : 0 ≤ qq) (hr : 0 ≤ rr)
    (hn : qq * (rr - 1) ≤ 1) (n : ℕ) :
    fedVar qq rr reset (n + 1) ≤ fedVar qq rr reset n := by
  cases reset
  · induction n with
    | zero => simpa [fedVar] using nextVar_one_le qq rr hq hr hn
    | succ n ih =>
      have h0 := fedVar_nonneg qq rr false hq hr (n + 1)
      have := nextVar_mono _ _ qq rr h0 ih hq hr
      simpa [fedVar] using this
  · cases n <;> simp [fedVar]

theorem fedVar_antitone (qq rr : ℚ) (reset : Bool) (hq : 0 ≤ qq) (hr : 0 ≤ rr)
    (hn : qq * (rr - 1) ≤ 1) (a b : ℕ) (hab : a ≤ b) :
    fedVar qq rr reset b ≤ fedVar qq rr reset a := by
  induction b, hab using Nat.le_induction with
  | base => exact le_rfl
  | succ b _ ih => exact le_trans (fedVar_succ_le qq rr reset hq hr hn b) ih

theorem sqrtGt_false_mono (s1 s2 t : ℚ) (h0 : 0 ≤ s1) (h12 : s1 ≤ s2)
    (h : sqrtGt s2 t = false) : sqrtGt s1 t = false := by
  unfold sqrtGt at h ⊢
  rw [decide_eq_false_iff_not] at h ⊢
  rintro ⟨_, h1 | h1⟩
  · exact h ⟨le_trans h0 h12, Or.inl h1⟩
  · exact h ⟨le_trans h0 h12, Or.inr (lt_of_lt_of_le h1 h12)⟩

theorem converged_of_fed (cfg : Settings) (c : Fin 4 → Point2d) (s : ApriltagHypothesis)
    (p : ℚ) (h : FedInv cfg c s p) :
    s.converged = true ↔
      cfg.min_convergence_time ≤
          seconds (s.last_observation_timestamp_ - s.first_observation_timestamp_) ∧
        sqrtGt p cfg.convergence_transl = false := by
  obtain ⟨hf, _, _, _, _, _, hmin, hconv, hk⟩ := h
  rw [converged_eq_true_iff]
  have hP : ∀ i : Fin 4, (s.kalman_filters_ i).errorCovPost = scalarMat p :=
    fun i => (hk i).1.2.2.2.2
  simp only [hf, hmin, hconv, hP, scalarMat, max_self, true_and, forall_const]

theorem seconds_mono (a b : ℤ) (h : a ≤ b) : seconds a ≤ seconds b := by
  unfold seconds
  have : (a : ℚ) ≤ (b : ℚ) := by exact_mod_cast h
  exact div_le_div_of_nonneg_right this (by norm_num)

theorem stamps_monotone (stamps : ℕ → Time) (hmono : ∀ n, stamps n ≤ stamps (n + 1))
    (a b : ℕ) (hab : a ≤ b) : stamps a ≤ stamps b := by
  induction b, hab using Nat.le_induction with
  | base => exact le_rfl
  | succ b _ ih => exact le_trans ih (hmono b)

/-- C8, refuted as stated: with process and measurement noise 2 (and threshold 0, so that
the second call is a continuous update) the posterior variance of filter 0 grows from 1 after
the first call to 20/9 after the second call with the same corners. -/
theorem variance_nonincreasing_counterexample :
    ∃ s1 s2,
      feedSame (construct 7 ⟨1, 0, 1, 0, 1, 2, 2⟩) [⟨0, 0⟩, ⟨1, 0⟩, ⟨1, 1⟩, ⟨0, 1⟩]
        (fun _ => 0) 1 = Except.ok s1 ∧
      feedSame (construct 7 ⟨1, 0, 1, 0, 1, 2, 2⟩) [⟨0, 0⟩, ⟨1, 0⟩, ⟨1, 1⟩, ⟨0, 1⟩]
        (fun _ => 0) 2 = Except.ok s2 ∧
      (s1.kalman_filters_ 0).errorCovPost.m00 = 1 ∧
      (s2.kalman_filters_ 0).errorCovPost.m00 = 20 / 9 ∧
      (s1.kalman_filters_ 0).errorCovPost.m00 < (s2.kalman_filters_ 0).errorCovPost.m00 := by
  obtain ⟨s1, h1, i1, _, _⟩ := feedSame_fed 7 ⟨1, 0, 1, 0, 1, 2, 2⟩
    ![⟨0, 0⟩, ⟨1, 0⟩, ⟨1, 1⟩, ⟨0, 1⟩] (fun _ => 0) 0
  obtain ⟨s2, h2, i2, _, _⟩ := feedSame_fed 7 ⟨1, 0, 1, 0, 1, 2, 2⟩
    ![⟨0, 0⟩, ⟨1, 0⟩, ⟨1, 1⟩, ⟨0, 1⟩] (fun _ => 0) 1
  have e1 : (s1.kalman_filters_ 0).errorCovPost.m00 = 1 := by
    rw [(i1.2.2.2.2.2.2.2.2 0).1.2.2.2.2]
    norm_num [fedVar, scalarMat]
  have e2 : (s2.kalman_filters_ 0).errorCovPost.m00 = 20 / 9 := by
    rw [(i2.2.2.2.2.2.2.2.2 0).1.2.2.2.2]
    norm_num [fedVar, nextVar, scalarMat]
  refine ⟨s1, s2, h1, h2, e1, e2, ?_⟩
  rw [e1, e2]
  norm_num

/-- C8, amended: when the noise settings satisfy `q^2 * (r^2 - 1) <= 1` (`q` the process
noise, `r` the measurement noise), repeated calls `update(C, t_k)` with the same four corners
on a fresh hypothesis all return, and the positional variances `P00` and `P11` of every
filter after call `k + 1` are at most their values after call `k`, for every `k >= 1`. -/
theorem variance_nonincreasing (id : ℤ) (cfg : Settings) (c0 c1 c2 c3 : Point2d)
    (stamps : ℕ → Time)
    (hn : cfg.process_noise_transl * cfg.process_noise_transl *
      (cfg.measurement_noise_transl * cfg.measurement_noise_transl - 1) ≤ 1)
    (k : ℕ) (hk : 1 ≤ k) :
    ∃ sk sk1,
      feedSame (construct id cfg) [c0, c1, c2, c3] stamps k = Except.ok sk ∧
      feedSame (construct id cfg) [c0, c1, c2, c3] stamps (k + 1) = Except.ok sk1 ∧
      ∀ i : Fin 4,
        (sk1.kalman_filters_ i).errorCovPost.m00 ≤ (sk.kalman_filters_ i).errorCovPost.m00 ∧
        (sk1.kalman_filters_ i).errorCovPost.m11 ≤ (sk.kalman_filters_ i).errorCovPost.m11 := by
  obtain ⟨n, rfl⟩ : ∃ n, k = n + 1 := ⟨k - 1, by omega⟩
  obtain ⟨sk, h1, i1, _, _⟩ := feedSame_fed id cfg ![c0, c1, c2, c3] stamps n
  obtain ⟨sk1, h2, i2, _, _⟩ := feedSame_fed id cfg ![c0, c1, c2, c3] stamps (n + 1)
  refine ⟨sk, sk1, h1, h2, fun i => ?_⟩
  rw [(i1.2.2.2.2.2.2.2.2 i).1.2.2.2.2, (i2.2.2.2.2.2.2.2.2 i).1.2.2.2.2]
  have := fedVar_succ_le _ _ (decide (cfg.new_hypothesis_transl < 0))
    (mul_self_nonneg cfg.process_noise_transl) (mul_self_nonneg cfg.measurement_noise_transl)
    hn n
  exact ⟨this, this⟩

/-- C8 amended, at a concrete input: unit noise, unit square, first and second call. -/
theorem variance_nonincreasing_witness :
    ∃ sk sk1,
      feedSame (construct 7 ⟨1, 0, 1, 1, 1, 1, 1⟩) [⟨0, 0⟩, ⟨1, 0⟩, ⟨1, 1⟩, ⟨0, 1⟩]
        (fun n => n) 1 = Except.ok sk ∧
      feedSame (construct 7 ⟨1, 0, 1, 1, 1, 1, 1⟩) [⟨0, 0⟩, ⟨1, 0⟩, ⟨1, 1⟩, ⟨0, 1⟩]
        (fun n => n) (1 + 1) = Except.ok sk1 ∧
      ∀ i : Fin 4,
        (sk1.kalman_filters_ i).errorCovPost.m00 ≤ (sk.kalman_filters_ i).errorCovPost.m00 ∧
        (sk1.kalman_filters_ i).errorCovPost.m11 ≤ (sk.kalman_filters_ i).errorCovPost.m11 :=
  variance_nonincreasing 7 ⟨1, 0, 1, 1, 1, 1, 1⟩ ⟨0, 0⟩ ⟨1, 0⟩ ⟨1, 1⟩ ⟨0, 1⟩ (fun n => n)
    (by norm_num) 1 (le_refl 1)

/-- C9, refuted as stated: with process and measurement noise 2, minimum convergence time 0
and convergence threshold 1, the hypothesis is converged after the first call and no longer
converged after the second call with the same corners and the same timestamp. -/
theorem converged_stays_counterexample :
    ∃ s1 s2,
      feedSame (construct 7 ⟨1, 0, 1, 0, 1, 2, 2⟩) [⟨0, 0⟩, ⟨1, 0⟩, ⟨1, 1⟩, ⟨0, 1⟩]
        (fun _ => 0) 1 = Except.ok s1 ∧
      feedSame (construct 7 ⟨1, 0, 1, 0, 1, 2, 2⟩) [⟨0, 0⟩, ⟨1, 0⟩, ⟨1, 1⟩, ⟨0, 1⟩]
        (fun _ => 0) 2 = Except.ok s2 ∧
      s1.converged = true ∧ s2.converged = false := by
  obtain ⟨s1, h1, i1, l1, f1⟩ := feedSame_fed 7 ⟨1, 0, 1, 0, 1, 2, 2⟩
    ![⟨0, 0⟩, ⟨1, 0⟩, ⟨1, 1⟩, ⟨0, 1⟩] (fun _ => 0) 0
  obtain ⟨s2, h2, i2, l2, f2⟩ := feedSame_fed 7 ⟨1, 0, 1, 0, 1, 2, 2⟩
    ![⟨0, 0⟩, ⟨1, 0⟩, ⟨1, 1⟩, ⟨0, 1⟩] (fun _ => 0) 1
  refine ⟨s1, s2, h1, h2, ?_, ?_⟩
  · rw [converged_of_fed _ _ _ _ i1, l1, f1]
    refine ⟨by norm_num [seconds], ?_⟩
    norm_num [fedVar, sqrtGt]
  · rw [← Bool.not_eq_true, converged_of_fed _ _ _ _ i2]
    rintro ⟨_, h⟩
    norm_num [fedVar, nextVar, sqrtGt] at h

/-- C9, amended: when the noise settings satisfy `q^2 * (r^2 - 1) <= 1`, feeding the same
four corners at non-decreasing timestamps to a fresh hypothesis keeps it converged: if
`converged()` is true after call `k` it is true after every later call `j`. -/
theorem converged_stays (id : ℤ) (cfg : Settings) (c0 c1 c2 c3 : Point2d)
    (stamps : ℕ → Time) (hmono : ∀ n, stamps n ≤ stamps (n + 1))
    (hn : cfg.process_noise_transl * cfg.process_noise_transl *
      (cfg.measurement_noise_transl * cfg.measurement_noise_transl - 1) ≤ 1)
    (k j : ℕ) (hk : 1 ≤ k) (hkj : k ≤ j) :
    ∃ sk sj,
      feedSame (construct id cfg) [c0, c1, c2, c3] stamps k = Except.ok sk ∧
      feedSame (construct id cfg) [c0, c1, c2, c3] stamps j = Except.ok sj ∧
      (sk.converged = true → sj.converged = true) := by
  obtain ⟨a, rfl⟩ : ∃ a, k = a + 1 := ⟨k - 1, by omega⟩
  obtain ⟨b, rfl⟩ : ∃ b, j = b + 1 := ⟨j - 1, by omega⟩
  have hab : a ≤ b := by omega
  obtain ⟨sk, h1, i1, l1, f1⟩ := feedSame_fed id cfg ![c0, c1, c2, c3] stamps a
  obtain ⟨sj, h2, i2, l2, f2⟩ := feedSame_fed id cfg ![c0, c1, c2, c3] stamps b
  refine ⟨sk, sj, h1, h2, ?_⟩
  rw [converged_of_fed _ _ _ _ i1, converged_of_fed _ _ _ _ i2, l1, f1, l2, f2]
  rintro ⟨ht, hv⟩
  have hq := mul_self_nonneg cfg.process_noise_transl
  have hr := mul_self_nonneg cfg.measurement_noise_transl
  refine ⟨?_, sqrtGt_false_mono _ _ _ (fedVar_nonneg _ _ _ hq hr b)
    (fedVar_antitone _ _ _ hq hr hn a b hab) hv⟩
  by_cases hneg : cfg.new_hypothesis_transl < 0
  · simp only [hneg, if_true, sub_self] at ht ⊢
    exact ht
  · simp only [hneg, if_false] at ht ⊢
    refine le_trans ht (seconds_mono _ _ ?_)
    exact sub_le_sub_right (stamps_monotone stamps hmono a b hab) _

/-- C9 amended, at a concrete input: unit noise, timestamps 0, 1, 2, ..., calls 1 and 3. -/
theorem converged_stays_witness :
    ∃ sk sj,
      feedSame (construct 7 ⟨1, 0, 1, 1, 1, 1, 1⟩) [⟨0, 0⟩, ⟨1, 0⟩, ⟨1, 1⟩, ⟨0, 1⟩]
        (fun n => n) 1 = Except.ok sk ∧
      feedSame (construct 7 ⟨1, 0, 1, 1, 1, 1, 1⟩) [⟨0, 0⟩, ⟨1, 0⟩, ⟨1, 1⟩, ⟨0, 1⟩]
        (fun n => n) 3 = Except.ok sj ∧
      (sk.converged = true → sj.converged = true) :=
  converged_stays 7 ⟨1, 0, 1, 1, 1, 1, 1⟩ ⟨0, 0⟩ ⟨1, 0⟩ ⟨1, 1⟩ ⟨0, 1⟩ (fun n => n)
    (fun n => by simp) (by norm_num) 1 3 (le_refl 1) (by norm_num)

/-! ## The number of stored corners -/

/-- C10, the code at the failing input: the first `update` of a fresh hypothesis on five
corners returns true and stores all five corners as latest and as filtered corners. -/
theorem update_first_five_corners :
    ∃ s1,
      (construct 7 ⟨1, 1, 1, 1, 1, 1, 1⟩).update
        [⟨0, 0⟩, ⟨1, 0⟩, ⟨1, 1⟩, ⟨0, 1⟩, ⟨2, 2⟩] 5 = Except.ok (s1, true) ∧
      s1.latest_corner_points_2d_.length = 5 ∧ s1.filtered_corner_points_2d_.length = 5 :=
  ⟨_, update_first_eq _ ⟨0, 0⟩ ⟨1, 0⟩ ⟨1, 1⟩ ⟨0, 1⟩ [⟨2, 2⟩] 5 rfl rfl, rfl, rfl⟩

/-- Whenever `update` returns on four corners, the latest and the filtered corners both
have length 4 afterwards. -/
theorem update_four_corners_lengths (s s1 : ApriltagHypothesis) (corners : List Point2d)
    (stamp : Time) (b : Bool) (h : s.update corners stamp = Except.ok (s1, b))
    (hlen : corners.length = 4) :
    s1.latest_corner_points_2d_.length = 4 ∧ s1.filtered_corner_points_2d_.length = 4 := by
  obtain ⟨hstatic, hcase⟩ := update_ok_cases s s1 corners stamp b h
  rcases hcase with ⟨hf, c0, c1, c2, c3, rest, hC⟩ | ⟨hf, f0, f1, f2, f3, c0, c1, c2, c3, hF, hC⟩
  · subst hC
    rw [update_first_eq s c0 c1 c2 c3 rest stamp hf hstatic] at h
    injection h with h
    injection h with h1 _
    subst h1
    exact ⟨hlen, hlen⟩
  · subst hC
    cases hj : normGt ((mean4 f0 f1 f2 f3).sub (mean4 c0 c1 c2 c3)) s.new_hypothesis_transl_
    · rw [update_continuous_eq s f0 f1 f2 f3 c0 c1 c2 c3 stamp hf hstatic hF hj] at h
      injection h with h
      injection h with h1 _
      subst h1
      exact ⟨rfl, rfl⟩
    · rw [update_reset_eq s f0 f1 f2 f3 c0 c1 c2 c3 stamp hf hstatic hF hj] at h
      injection h with h
      injection h with h1 _
      subst h1
      exact ⟨rfl, rfl⟩

/-! ## Contract violations -/

/-- On an already-observed hypothesis a corner sequence whose length is not 4 fails the
size assertion of `getCenter2d`. -/
theorem update_observed_wrong_count (s : ApriltagHypothesis) (corners : List Point2d)
    (stamp : Time) (hobs : s.first_observation_ = false) (hlen : corners.length ≠ 4) :
    s.update corners stamp = Except.error Fault.assertion := by
  simp only [update, hobs, Bool.false_eq_true, if_false]
  cases hfc : getCenter2d s.filtered_corner_points_2d_ with
  | error e =>
    by_cases hl : s.filtered_corner_points_2d_.length = 4
    · obtain ⟨a, b, c, d, hF⟩ := length_eq_four _ hl
      rw [hF, getCenter2d_eq] at hfc
      cases hfc
    · rw [getCenter2d_ne _ hl] at hfc
      cases hfc
      rfl
  | ok fc => simp [Except.bind, getCenter2d_ne corners hlen]

/-- On a never-observed hypothesis fewer than four corners end the call in the loop of
`initStaticKalman`, which reads `corners[i]` without a size check. -/
theorem update_first_too_few :
    (construct 7 ⟨1, 1, 1, 1, 1, 1, 1⟩).update [⟨0, 0⟩, ⟨1, 0⟩, ⟨1, 1⟩] 5 =
      Except.error Fault.outOfBounds := by
  simp [update, construct, initKalman, initStaticKalman, loop4, initStaticKalmanBody,
    Except.bind, fin4_val_three]

/-- C11, the code at the failing input: on a never-observed hypothesis `update` with five
corners does not abort; it returns true and stores the five corners as latest and as
filtered corners. -/
theorem update_first_wrong_count_returns :
    ∃ s1,
      (construct 7 ⟨1, 1, 1, 1, 1, 1, 1⟩).update
        [⟨0, 0⟩, ⟨4, 0⟩, ⟨4, 4⟩, ⟨0, 4⟩, ⟨9, 9⟩] 5 = Except.ok (s1, true) ∧
      s1.latest_corner_points_2d_ = [⟨0, 0⟩, ⟨4, 0⟩, ⟨4, 4⟩, ⟨0, 4⟩, ⟨9, 9⟩] ∧
      s1.filtered_corner_points_2d_ = [⟨0, 0⟩, ⟨4, 0⟩, ⟨4, 4⟩, ⟨0, 4⟩, ⟨9, 9⟩] :=
  ⟨_, update_first_eq _ ⟨0, 0⟩ ⟨4, 0⟩ ⟨4, 4⟩ ⟨0, 4⟩ [⟨9, 9⟩] 5 rfl rfl, rfl, rfl⟩

/-- C12: under the constant-velocity model `initKalman` fails its assertion on every
corner sequence, so no filter is initialised, and every `update` that reaches the
initialisation ends with that failed assertion instead of a flag: the first observation, and
a later observation whose centroid jumps by more than the new-hypothesis threshold. -/
theorem update_constantVelocity_aborts (s : ApriltagHypothesis)
    (hcv : s.dynamics_model_ = DynamicsModel.ConstantVelocity) :
    (∀ corners, s.initKalman corners = Except.error Fault.assertion) ∧
    (∀ corners stamp, s.first_observation_ = true →
      s.update corners stamp = Except.error Fault.assertion) ∧
    (∀ (f0 f1 f2 f3 c0 c1 c2 c3 : Point2d) (stamp : Time),
      s.first_observation_ = false →
      s.filtered_corner_points_2d_ = [f0, f1, f2, f3] →
      (s.new_hypothesis_transl_ : ℝ) <
        Real.sqrt ((distSq (mean4 f0 f1 f2 f3) (mean4 c0 c1 c2 c3) : ℚ) : ℝ) →
      s.update [c0, c1, c2, c3] stamp = Except.error Fault.assertion) := by
  refine ⟨fun corners => ?_, fun corners stamp hf => ?_, ?_⟩
  · simp [initKalman, hcv]
  · simp [update, hf, initKalman, hcv, Except.bind]
  · intro f0 f1 f2 f3 c0 c1 c2 c3 stamp hf hF hjump
    have hj := (normGt_sub_iff _ _ _).mpr hjump
    simp [update, hf, hF, getCenter2d_eq, Except.bind, hj, initKalman, hcv]

/-- C12, at a concrete input: a fresh hypothesis set to the constant-velocity model. -/
theorem update_constantVelocity_aborts_witness :
    (∀ corners,
      ((construct 7 ⟨1, 1, 1, 1, 1, 1, 1⟩).setDynamicsModel
        DynamicsModel.ConstantVelocity).initKalman corners = Except.error Fault.assertion) ∧
    ((construct 7 ⟨1, 1, 1, 1, 1, 1, 1⟩).setDynamicsModel
        DynamicsModel.ConstantVelocity).update [⟨0, 0⟩, ⟨1, 0⟩, ⟨1, 1⟩, ⟨0, 1⟩] 5 =
      Except.error Fault.assertion :=
  have h := update_constantVelocity_aborts
    ((construct 7 ⟨1, 1, 1, 1, 1, 1, 1⟩).setDynamicsModel DynamicsModel.ConstantVelocity) rfl
  ⟨h.1, h.2.1 _ 5 rfl⟩

/-! ## Centres and 3D reconstruction -/

theorem getCenter3d_eq (a b c d : Point3d) :
    getCenter3d [a, b, c, d] = Except.ok (mean4_3d a b c d) := by
  simp [getCenter3d, mean4_3d, Point3d.zero, Point3d.add, Point3d.divScalar]

theorem getCenter3d_ne (l : List Point3d) (h : l.length ≠ 4) :
    getCenter3d l = Except.error Fault.assertion := by
  unfold getCenter3d
  split
  · simp at h
  · rfl

/-- C13: `getCenter2d` of four 2D points and `getCenter3d` of four 3D points return their
arithmetic means, `getCenter2d()` without argument returns the mean of the filtered corners,
and a sequence of any other length fails the size assertion. -/
theorem getCenter_mean :
    (∀ a b c d : Point2d, getCenter2d [a, b, c, d] = Except.ok (mean4 a b c d)) ∧
    (∀ a b c d : Point3d, getCenter3d [a, b, c, d] = Except.ok (mean4_3d a b c d)) ∧
    (∀ (s : ApriltagHypothesis) (a b c d : Point2d),
      s.filtered_corner_points_2d_ = [a, b, c, d] →
      s.getCenter2dFiltered = Except.ok (mean4 a b c d)) ∧
    (∀ l : List Point2d, l.length ≠ 4 → getCenter2d l = Except.error Fault.assertion) ∧
    (∀ l : List Point3d, l.length ≠ 4 → getCenter3d l = Except.error Fault.assertion) := by
  refine ⟨getCenter2d_eq, getCenter3d_eq, ?_, getCenter2d_ne, getCenter3d_ne⟩
  intro s a b c d h
  rw [getCenter2dFiltered, h, getCenter2d_eq]

/-- C13, at concrete inputs: the unit square, a hypothesis whose filtered corners are the
unit square, and sequences of 3 points. -/
theorem getCenter_mean_witness :
    getCenter2d [⟨0, 0⟩, ⟨1, 0⟩, ⟨1, 1⟩, ⟨0, 1⟩] = Except.ok ⟨1 / 2, 1 / 2⟩ ∧
    getCenter3d [⟨0, 0, 2⟩, ⟨1, 0, 2⟩, ⟨1, 1, 2⟩, ⟨0, 1, 2⟩] = Except.ok ⟨1 / 2, 1 / 2, 2⟩ ∧
    ({ construct 7 ⟨1, 1, 1, 1, 1, 1, 1⟩ with
        filtered_corner_points_2d_ :=
          [⟨0, 0⟩, ⟨1, 0⟩, ⟨1, 1⟩, ⟨0, 1⟩] }).getCenter2dFiltered =
      Except.ok ⟨1 / 2, 1 / 2⟩ ∧
    getCenter2d [⟨0, 0⟩, ⟨1, 0⟩, ⟨1, 1⟩] = Except.error Fault.assertion ∧
    getCenter3d [⟨0, 0, 2⟩, ⟨1, 0, 2⟩, ⟨1, 1, 2⟩] = Except.error Fault.assertion := by
  have h := getCenter_mean
  refine ⟨?_, ?_, ?_, h.2.2.2.1 _ (by decide), h.2.2.2.2 _ (by decide)⟩
  · rw [h.1]
    norm_num [mean4]
  · rw [h.2.1]
    norm_num [mean4_3d]
  · rw [h.2.2.1 _ ⟨0, 0⟩ ⟨1, 0⟩ ⟨1, 1⟩ ⟨0, 1⟩ rfl]
    norm_num [mean4]

/-- C14: when the pose solver returns exactly one solution `(rvec, tvec)` for the template
of side `tag_size_` and the undistorted image points, `getPoints3d` returns exactly four
points, the `i`-th being `R * q_i + t` with `R` the rotation matrix of `rvec`, `t = tvec`
and `q` the square of side `tag_size_` centred at the origin in the plane `z = 0`. -/
theorem getPoints3d_transform (env : PoseCollaborators) (s : ApriltagHypothesis)
    (image_points : List Point2d) (rvec tvec : Matx31d)
    (hsol : env.solve (squareTemplate s.tag_size_) (env.undistortPoints image_points) =
      ([rvec], [tvec])) :
    ∃ pts, getPoints3d env s image_points = Except.ok pts ∧ pts.length = 4 ∧
      pts = (squareTemplate s.tag_size_).map (toCamera (env.Rodrigues rvec) tvec) := by
  have ht : ([⟨-0.5 * s.tag_size_, 0.5 * s.tag_size_, 0.0⟩,
      ⟨0.5 * s.tag_size_, 0.5 * s.tag_size_, 0.0⟩,
      ⟨0.5 * s.tag_size_, -0.5 * s.tag_size_, 0.0⟩,
      ⟨-0.5 * s.tag_size_, -0.5 * s.tag_size_, 0.0⟩] : List Point3d) =
      squareTemplate s.tag_size_ := by
    simp only [squareTemplate, List.cons.injEq, Point3d.mk.injEq, and_true]
    norm_num
    refine ⟨⟨?_, ?_⟩, ?_, ?_⟩ <;> ring
  refine ⟨_, ?_, ?_, rfl⟩
  · simp only [getPoints3d, ht, hsol]
    simp [squareTemplate, toCamera, Matx33d.mulVec, Matx31d.ofPoint, Matx31d.add]
  · simp [squareTemplate]

/-- C14, at a concrete input: a solver that returns the single pose "no rotation, one unit
along the optical axis" (the rotation matrix of the zero vector being the identity). -/
theorem getPoints3d_transform_witness :
    ∃ pts,
      getPoints3d
        ⟨fun p => p, fun _ _ => ([⟨0, 0, 0⟩], [⟨0, 0, 1⟩]), fun _ => ⟨1, 0, 0, 0, 1, 0, 0, 0, 1⟩⟩
        (construct 7 ⟨2, 1, 1, 1, 1, 1, 1⟩) [⟨0, 0⟩, ⟨1, 0⟩, ⟨1, 1⟩, ⟨0, 1⟩] = Except.ok pts ∧
      pts.length = 4 ∧
      pts = (squareTemplate (construct 7 ⟨2, 1, 1, 1, 1, 1, 1⟩).tag_size_).map
        (toCamera ⟨1, 0, 0, 0, 1, 0, 0, 0, 1⟩ ⟨0, 0, 1⟩) :=
  getPoints3d_transform
    ⟨fun p => p, fun _ _ => ([⟨0, 0, 0⟩], [⟨0, 0, 1⟩]), fun _ => ⟨1, 0, 0, 0, 1, 0, 0, 0, 1⟩⟩
    (construct 7 ⟨2, 1, 1, 1, 1, 1, 1⟩) [⟨0, 0⟩, ⟨1, 0⟩, ⟨1, 1⟩, ⟨0, 1⟩] ⟨0, 0, 0⟩ ⟨0, 0, 1⟩ rfl

/-- C17: `initStaticKalman` on four corners returns and leaves filter `i` with posterior
state corner `i`, posterior covariance the identity, process-noise covariance
`diag(q^2, q^2)`, measurement-noise covariance `diag(r^2, r^2)`, and identity transition and
measurement matrices; states have two components and matrices are 2x2 by construction. -/
theorem initStaticKalman_seeds (s : ApriltagHypothesis) (c0 c1 c2 c3 : Point2d) :
    ∃ s1, s.initStaticKalman [c0, c1, c2, c3] = Except.ok s1 ∧
      ∀ i : Fin 4,
        (s1.kalman_filters_ i).statePost =
          ⟨(![c0, c1, c2, c3] i).x, (![c0, c1, c2, c3] i).y⟩ ∧
        (s1.kalman_filters_ i).errorCovPost = ⟨1, 0, 0, 1⟩ ∧
        (s1.kalman_filters_ i).processNoiseCov =
          ⟨s.process_noise_transl_ * s.process_noise_transl_, 0, 0,
            s.process_noise_transl_ * s.process_noise_transl_⟩ ∧
        (s1.kalman_filters_ i).measurementNoiseCov =
          ⟨s.measurement_noise_transl_ * s.measurement_noise_transl_, 0, 0,
            s.measurement_noise_transl_ * s.measurement_noise_transl_⟩ ∧
        (s1.kalman_filters_ i).transitionMatrix = ⟨1, 0, 0, 1⟩ ∧
        (s1.kalman_filters_ i).measurementMatrix = ⟨1, 0, 0, 1⟩ := by
  refine ⟨_, initStaticKalman_eq s c0 c1 c2 c3 [], fun i => ?_⟩
  simp [initStaticKalmanFilter_eq, Mat2.eye, scalarMat]

/-! ## The Kalman blend of a continuous update -/

theorem nextVar_pos (p qq rr : ℚ) (hp : 0 < p) (hq : 0 ≤ qq) (hr : 0 < rr) :
    0 < nextVar p qq rr := by
  have hpos : 0 < p + qq + rr := by linarith
  rw [nextVar_eq p qq rr hpos.ne']
  exact div_pos (mul_pos (by linarith) hr) hpos

theorem blend_between (K : ℚ) (h0 : 0 < K) (h1 : K < 1) (x z : ℚ) :
    (x < z → x < blend K x z ∧ blend K x z < z) ∧
      (z < x → z < blend K x z ∧ blend K x z < x) := by
  unfold blend
  constructor
  · intro h
    constructor <;> nlinarith
  · intro h
    constructor <;> nlinarith

/-- Every observed hypothesis that a caller can obtain has four static filters with common
non-negative variances, a positive posterior variance whenever the stored measurement-noise
variance is positive, and its first four filtered corners are the posterior states of the
filters. -/
theorem reachable_bank_post (s : ApriltagHypothesis) (h : Reachable s) :
    s.first_observation_ = false →
      (∃ p qq rr, 0 ≤ qq ∧ 0 ≤ rr ∧ (0 < rr → 0 < p) ∧
        ∀ i, IsStaticFilter (s.kalman_filters_ i) p qq rr) ∧
      ∀ i : Fin 4,
        s.filtered_corner_points_2d_[i.val]? =
          some ⟨(s.kalman_filters_ i).statePost.v0, (s.kalman_filters_ i).statePost.v1⟩ := by
  induction h with
  | construct id cfg =>
    intro h
    simp [construct] at h
  | update s s1 corners stamp b _ hu ih =>
    intro _
    obtain ⟨hstatic, hcase⟩ := update_ok_cases s s1 corners stamp b hu
    rcases hcase with ⟨hf, c0, c1, c2, c3, rest, hC⟩ |
      ⟨hf, f0, f1, f2, f3, c0, c1, c2, c3, hF, hC⟩
    · subst hC
      rw [update_first_eq s c0 c1 c2 c3 rest stamp hf hstatic] at hu
      injection hu with hu
      injection hu with h1 _
      subst h1
      refine ⟨⟨1, _, _, mul_self_nonneg _, mul_self_nonneg _, fun _ => zero_lt_one,
        fun i => initStaticKalmanFilter_isStatic s _ _⟩, fun i => ?_⟩
      simp only [initStaticKalmanFilter_eq]
      fin_cases i <;> simp
    · subst hC
      obtain ⟨⟨p, qq, rr, hq, hr, hp, hall⟩, hpost⟩ := ih hf
      cases hj : normGt ((mean4 f0 f1 f2 f3).sub (mean4 c0 c1 c2 c3)) s.new_hypothesis_transl_
      · rw [update_continuous_eq s f0 f1 f2 f3 c0 c1 c2 c3 stamp hf hstatic hF hj] at hu
        injection hu with hu
        injection hu with h1 _
        subst h1
        refine ⟨⟨nextVar p qq rr, qq, rr, hq, hr,
          fun hpos => nextVar_pos p qq rr (hp hpos) hq hpos,
          fun i => predict_correct_isStatic _ p qq rr _ (hall i)⟩, fun i => ?_⟩
        fin_cases i <;> rfl
      · rw [update_reset_eq s f0 f1 f2 f3 c0 c1 c2 c3 stamp hf hstatic hF hj] at hu
        injection hu with hu
        injection hu with h1 _
        subst h1
        refine ⟨⟨1, _, _, mul_self_nonneg _, mul_self_nonneg _, fun _ => zero_lt_one,
          fun i => initStaticKalmanFilter_isStatic s _ _⟩, fun i => ?_⟩
        simp only [initStaticKalmanFilter_eq]
        fin_cases i <;> simp
  | setDynamicsModel s m _ ih => exact ih
  | setMinConvergenceTime s v _ ih => exact ih
  | setMaxConvergenceThreshold s v _ ih => exact ih
  | setNewHypothesisThreshold s v _ ih => exact ih
  | setMaxNoObservationTime s v _ ih => exact ih
  | setMeasurementNoise s v _ ih => exact ih
  | setProcessNoise s v _ ih => exact ih
  | setTagSize s v _ ih => exact ih

/-- C15, refuted as stated: a hypothesis initialised with measurement noise 0 keeps the
measurement-noise covariance 0 in its filters when `setMeasurementNoise(1)` is called
afterwards, so the next continuous update, made with a non-zero measurement-noise setting,
has gain 1 and stores an exact copy of the measured corners. -/
theorem update_blend_counterexample :
    ∃ s s1 : ApriltagHypothesis, Reachable s ∧ s.measurement_noise_transl_ = 1 ∧
      s.first_observation_ = false ∧ s.dynamics_model_ = DynamicsModel.Static ∧
      s.filtered_corner_points_2d_ = [⟨99, 99⟩, ⟨101, 99⟩, ⟨101, 101⟩, ⟨99, 101⟩] ∧
      s.update [⟨104, 99⟩, ⟨106, 99⟩, ⟨106, 101⟩, ⟨104, 101⟩] 9 = Except.ok (s1, true) ∧
      s1.filtered_corner_points_2d_ = [⟨104, 99⟩, ⟨106, 99⟩, ⟨106, 101⟩, ⟨104, 101⟩] := by
  have hreach := Reachable.setMeasurementNoise _ 1 (Reachable.update _ _ _ _ _
    (Reachable.construct 7 ⟨1, 0, 1, 50, 1, 0, 1⟩)
    (update_first_eq _ ⟨99, 99⟩ ⟨101, 99⟩ ⟨101, 101⟩ ⟨99, 101⟩ [] 5 rfl rfl))
  have hj : normGt ((mean4 ⟨99, 99⟩ ⟨101, 99⟩ ⟨101, 101⟩ ⟨99, 101⟩).sub
      (mean4 ⟨104, 99⟩ ⟨106, 99⟩ ⟨106, 101⟩ ⟨104, 101⟩)) 50 = false := by
    norm_num [normGt, sqrtGt, mean4, Point2d.sub]
  refine ⟨_, _, hreach, rfl, rfl, rfl, rfl,
    update_continuous_eq _ ⟨99, 99⟩ ⟨101, 99⟩ ⟨101, 101⟩ ⟨99, 101⟩
      ⟨104, 99⟩ ⟨106, 99⟩ ⟨106, 101⟩ ⟨104, 101⟩ 9 rfl rfl rfl hj, ?_⟩
  simp only [setMeasurementNoise, initStaticKalmanFilter_eq]
  norm_num [KalmanFilter.predict, KalmanFilter.correct, Mat2.solve, Mat2.pinv, Mat2.det,
    Mat2.mul, Mat2.add, Mat2.sub, Mat2.t, Mat2.eye, Mat2.mulVec, Vec2.add, Vec2.sub, scalarMat,
    construct, Mat2.zeros]

/-- C15, amended: on an observed hypothesis (static model) whose filters hold a non-zero
measurement-noise variance, that is, whose measurement-noise standard deviation was non-zero
when the filters were last (re)initialised, a continuous update (centroid distance at most
the threshold) returns true and there is one gain `K` with `0 < K < 1` such that each
coordinate of each new filtered corner is `x + K * (z - x)`, `x` the previous filtered
coordinate and `z` the measured one; for `x ≠ z` this value lies strictly between `x` and
`z`. -/
theorem update_blend (s : ApriltagHypothesis) (hreach : Reachable s)
    (f0 f1 f2 f3 c0 c1 c2 c3 : Point2d) (stamp : Time)
    (hobs : s.first_observation_ = false)
    (hstatic : s.dynamics_model_ = DynamicsModel.Static)
    (hfilt : s.filtered_corner_points_2d_ = [f0, f1, f2, f3])
    (hcont : Real.sqrt ((distSq (mean4 f0 f1 f2 f3) (mean4 c0 c1 c2 c3) : ℚ) : ℝ) ≤
      (s.new_hypothesis_transl_ : ℝ))
    (hnoise : (s.kalman_filters_ 0).measurementNoiseCov.m00 ≠ 0) :
    ∃ s1 K, s.update [c0, c1, c2, c3] stamp = Except.ok (s1, true) ∧ 0 < K ∧ K < 1 ∧
      s1.filtered_corner_points_2d_ =
        [⟨blend K f0.x c0.x, blend K f0.y c0.y⟩, ⟨blend K f1.x c1.x, blend K f1.y c1.y⟩,
         ⟨blend K f2.x c2.x, blend K f2.y c2.y⟩, ⟨blend K f3.x c3.x, blend K f3.y c3.y⟩] ∧
      ∀ x z : ℚ,
        (x < z → x < blend K x z ∧ blend K x z < z) ∧
          (z < x → z < blend K x z ∧ blend K x z < x) := by
  obtain ⟨⟨p, qq, rr, hq, hr, hp, hall⟩, hpost⟩ := reachable_bank_post s hreach hobs
  have hj := (normGt_sub_false_iff _ _ _).mpr hcont
  have hrr : 0 < rr := by
    have h0 := (hall 0).2.2.2.1
    rw [h0] at hnoise
    exact lt_of_le_of_ne hr (Ne.symm hnoise)
  have hp0 := hp hrr
  have hden : 0 < p + qq + rr := by linarith
  have hK0 : 0 < (p + qq) / (p + qq + rr) := div_pos (by linarith) hden
  have hK1 : (p + qq) / (p + qq + rr) < 1 := by
    rw [div_lt_one hden]
    linarith
  refine ⟨_, (p + qq) / (p + qq + rr),
    update_continuous_eq s f0 f1 f2 f3 c0 c1 c2 c3 stamp hobs hstatic hfilt hj, hK0, hK1, ?_,
    blend_between _ hK0 hK1⟩
  have h0 := hpost 0
  have h1 := hpost 1
  have h2 := hpost 2
  have h3 := hpost 3
  simp only [hfilt, Fin.val_zero, Fin.val_one, Fin.val_two, fin4_val_three,
    List.getElem?_cons_zero, List.getElem?_cons_succ, Option.some.injEq] at h0 h1 h2 h3
  subst h0 h1 h2 h3
  simp only [predict_correct_static _ _ _ _ _ (hall _), blend]

/-- C15 amended, at a concrete input: threshold 50, unit noise, a first frame with centroid
(100, 100) and a second frame with centroid (105, 100). -/
theorem update_blend_witness :
    ∃ (s s1 : ApriltagHypothesis) (K : ℚ), Reachable s ∧
      (s.kalman_filters_ 0).measurementNoiseCov.m00 ≠ 0 ∧
      s.update [⟨104, 99⟩, ⟨106, 99⟩, ⟨106, 101⟩, ⟨104, 101⟩] 9 = Except.ok (s1, true) ∧
      0 < K ∧ K < 1 ∧
      s1.filtered_corner_points_2d_ =
        [⟨blend K 99 104, blend K 99 99⟩, ⟨blend K 101 106, blend K 99 99⟩,
         ⟨blend K 101 106, blend K 101 101⟩, ⟨blend K 99 104, blend K 101 101⟩] :=
  have hreach := Reachable.update _ _ _ _ _
    (Reachable.construct 7 ⟨1, 0, 1, 50, 1, 1, 1⟩)
    (update_first_eq _ ⟨99, 99⟩ ⟨101, 99⟩ ⟨101, 101⟩ ⟨99, 101⟩ [] 5 rfl rfl)
  have hd : distSq (mean4 ⟨99, 99⟩ ⟨101, 99⟩ ⟨101, 101⟩ ⟨99, 101⟩)
      (mean4 ⟨104, 99⟩ ⟨106, 99⟩ ⟨106, 101⟩ ⟨104, 101⟩) = 25 := by
    norm_num [distSq, mean4]
  have hcont : Real.sqrt ((distSq (mean4 ⟨99, 99⟩ ⟨101, 99⟩ ⟨101, 101⟩ ⟨99, 101⟩)
      (mean4 ⟨104, 99⟩ ⟨106, 99⟩ ⟨106, 101⟩ ⟨104, 101⟩) : ℚ) : ℝ) ≤ ((50 : ℚ) : ℝ) := by
    rw [hd, Real.sqrt_le_iff]
    norm_num
  have hnoise : (initStaticKalmanFilter (construct 7 ⟨1, 0, 1, 50, 1, 1, 1⟩)
      ((construct 7 ⟨1, 0, 1, 50, 1, 1, 1⟩).kalman_filters_ 0)
      (![⟨99, 99⟩, ⟨101, 99⟩, ⟨101, 101⟩, ⟨99, 101⟩] 0)).measurementNoiseCov.m00 ≠ 0 := by
    rw [initStaticKalmanFilter_eq]
    norm_num [scalarMat, construct]
  let ⟨s1, K, hu, hK0, hK1, hfilt, _⟩ :=
    update_blend _ hreach ⟨99, 99⟩ ⟨101, 99⟩ ⟨101, 101⟩ ⟨99, 101⟩
      ⟨104, 99⟩ ⟨106, 99⟩ ⟨106, 101⟩ ⟨104, 101⟩ 9 rfl rfl rfl hcont hnoise
  ⟨_, s1, K, hreach, hnoise, hu, hK0, hK1, hfilt⟩

/-! ## The timestep of the constant-velocity branch -/

/-- C19, the code on every input: `update` overwrites `last_observation_timestamp_` with
`stamp` before its loop computes `dt = stamp - last_observation_timestamp_`, so the value
`dt` of the constant-velocity branch is 0 whatever timestamp the previous observation had. -/
theorem update_dt_zero (s : ApriltagHypothesis) (corners : List Point2d) (stamp : Time) :
    ({ s with
        last_observation_timestamp_ := stamp
        latest_corner_points_2d_ := corners }).updateDt stamp = 0 := by
  simp [updateDt, seconds]

/-- One second after the previous observation the elapsed time is 1 while `dt` is 0. -/
theorem update_dt_zero_example :
    seconds (2000000000 -
        ({ construct 7 ⟨1, 1, 1, 1, 1, 1, 1⟩ with
            first_observation_ := false
            last_observation_timestamp_ := 1000000000 }).last_observation_timestamp_) = 1 ∧
      ({ construct 7 ⟨1, 1, 1, 1, 1, 1, 1⟩ with
          first_observation_ := false
          last_observation_timestamp_ := 2000000000
          latest_corner_points_2d_ := [⟨0, 0⟩, ⟨1, 0⟩, ⟨1, 1⟩, ⟨0, 1⟩] }).updateDt 2000000000
        = 0 := by
  constructor
  · norm_num [seconds, construct]
  · norm_num [updateDt, seconds]

/-! ## Sequences of observations -/

theorem contSince_true_cons (flags : List Bool) (h : flags ≠ []) :
    contSince (true :: flags) = contSince flags + 1 := by
  cases flags with
  | nil => exact absurd rfl h
  | cons a rest => rfl

theorem contSince_false_cons (flags : List Bool) : contSince (false :: flags) = 0 := by
  cases flags <;> rfl

theorem feedSeq_succ_of (s : ApriltagHypothesis) (corners : ℕ → List Point2d)
    (stamps : ℕ → Time) (k : ℕ) (st s1 : ApriltagHypothesis) (fl : List Bool) (b : Bool)
    (hfeed : feedSeq s corners stamps k = Except.ok (st, fl))
    (hu : st.update (corners k) (stamps k) = Except.ok (s1, b)) :
    feedSeq s corners stamps (k + 1) = Except.ok (s1, b :: fl) := by
  rw [feedSeq, hfeed]
  simp only [Except.bind, hu]

/-- After every call of a sequence of calls of `update` on four corners each, made on a
fresh hypothesis, the invariant `SeqInv` holds; in particular every call returns. -/
theorem feedSeq_inv (id : ℤ) (cfg : Settings) (corners : ℕ → List Point2d)
    (stamps : ℕ → Time) (hlen : ∀ n, (corners n).length = 4) (n : ℕ) :
    ∃ s flags, feedSeq (construct id cfg) corners stamps (n + 1) = Except.ok (s, flags) ∧
      SeqInv cfg stamps n s flags := by
  induction n with
  | zero =>
    obtain ⟨c0, c1, c2, c3, hC⟩ := length_eq_four _ (hlen 0)
    have hu := update_first_eq (construct id cfg) c0 c1 c2 c3 [] (stamps 0) rfl rfl
    rw [← hC] at hu
    refine ⟨_, _, feedSeq_succ_of _ _ _ 0 _ _ _ _ rfl hu, ?_⟩
    · refine ⟨rfl, rfl, rfl, hlen 0, rfl, rfl, rfl, rfl, fun i => ?_, rfl, le_refl _, rfl⟩
      exact initStaticKalmanFilter_isStatic _ _ _
  | succ n ih =>
    obtain ⟨s, flags, hfeed, hfl, hf, hs, hF4, hq, hr, hmin, hconv, hk, hlast, hle, hfirst⟩ := ih
    obtain ⟨f0, f1, f2, f3, hF⟩ := length_eq_four _ hF4
    obtain ⟨c0, c1, c2, c3, hC⟩ := length_eq_four _ (hlen (n + 1))
    have hne : flags ≠ [] := by
      intro h
      rw [h] at hfl
      simp at hfl
    cases hj : normGt ((mean4 f0 f1 f2 f3).sub (mean4 c0 c1 c2 c3)) s.new_hypothesis_transl_
    · have hu := update_continuous_eq s f0 f1 f2 f3 c0 c1 c2 c3 (stamps (n + 1)) hf hs hF hj
      rw [← hC] at hu
      refine ⟨_, _, feedSeq_succ_of _ _ _ (n + 1) _ _ _ _ hfeed hu, ?_⟩
      · rw [SeqInv, contSince_true_cons flags hne]
        refine ⟨by simp [hfl], hf, hs, rfl, hq, hr, hmin, hconv, fun i => ?_, rfl,
          by omega, ?_⟩
        · exact predict_correct_isStatic _ _ _ _ _ (hk i)
        · show s.first_observation_timestamp_ = _
          rw [hfirst]
          congr 1
          omega
    · have hu := update_reset_eq s f0 f1 f2 f3 c0 c1 c2 c3 (stamps (n + 1)) hf hs hF hj
      rw [← hC] at hu
      refine ⟨_, _, feedSeq_succ_of _ _ _ (n + 1) _ _ _ _ hfeed hu, ?_⟩
      · rw [SeqInv, contSince_false_cons]
        refine ⟨by simp [hfl], hf, hs, hlen (n + 1), hq, hr, hmin, hconv, fun i => ?_, rfl,
          Nat.zero_le _, rfl⟩
        have := initStaticKalmanFilter_isStatic s (s.kalman_filters_ i) (![c0, c1, c2, c3] i)
        rw [hq, hr] at this
        exact this

/-- C18: after every call of a sequence of calls `update(corners, stamp)` with non-decreasing
timestamps on a fresh hypothesis (static model, four corners each), the call has returned,
`first_observation_timestamp_ <= last_observation_timestamp_` holds, and
`last_observation_timestamp_` is the timestamp of that most recent call. -/
theorem timestamps_ordered (id : ℤ) (cfg : Settings) (corners : ℕ → List Point2d)
    (stamps : ℕ → Time) (hlen : ∀ n, (corners n).length = 4)
    (hmono : ∀ n, stamps n ≤ stamps (n + 1)) (n : ℕ) :
    ∃ s flags, feedSeq (construct id cfg) corners stamps (n + 1) = Except.ok (s, flags) ∧
      s.first_observation_timestamp_ ≤ s.last_observation_timestamp_ ∧
      s.last_observation_timestamp_ = stamps n := by
  obtain ⟨s, flags, hfeed, _, _, _, _, _, _, _, _, _, hlast, _, hfirst⟩ :=
    feedSeq_inv id cfg corners stamps hlen n
  refine ⟨s, flags, hfeed, ?_, hlast⟩
  rw [hlast, hfirst]
  exact stamps_monotone stamps hmono _ _ (Nat.sub_le _ _)

/-- C18, at a concrete input: three calls on the unit square at the timestamps 0, 1, 2. -/
theorem timestamps_ordered_witness :
    ∃ s flags,
      feedSeq (construct 7 ⟨1, 1, 1, 1, 1, 1, 1⟩)
        (fun _ => [⟨0, 0⟩, ⟨1, 0⟩, ⟨1, 1⟩, ⟨0, 1⟩]) (fun n => n) (2 + 1) =
        Except.ok (s, flags) ∧
      s.first_observation_timestamp_ ≤ s.last_observation_timestamp_ ∧
      s.last_observation_timestamp_ = ((2 : ℕ) : ℤ) :=
  timestamps_ordered 7 ⟨1, 1, 1, 1, 1, 1, 1⟩ (fun _ => [⟨0, 0⟩, ⟨1, 0⟩, ⟨1, 1⟩, ⟨0, 1⟩])
    (fun n => n) (fun _ => rfl) (fun n => by simp) 2

/-- C20: after every call of a sequence of calls of `update` on a fresh hypothesis (static
model, four corners each) all four filters hold the same posterior covariance `v * I`, where
`v` is the variance of as many predict/correct steps after an initialisation as there were
continuous updates since the last (re)initialisation, under the noise settings; the corner
coordinates do not enter.  Hence a second sequence of observations with the same timestamps
that returns the same flags (the same pattern of resets) ends with the same answer of
`converged()`. -/
theorem covariance_from_flags (id : ℤ) (cfg : Settings) (corners corners1 : ℕ → List Point2d)
    (stamps : ℕ → Time) (hlen : ∀ n, (corners n).length = 4)
    (hlen1 : ∀ n, (corners1 n).length = 4) (n : ℕ) :
    ∃ s flags, feedSeq (construct id cfg) corners stamps (n + 1) = Except.ok (s, flags) ∧
      (∀ i : Fin 4,
        (s.kalman_filters_ i).errorCovPost =
          scalarMat (iterVar (cfg.process_noise_transl * cfg.process_noise_transl)
            (cfg.measurement_noise_transl * cfg.measurement_noise_transl) (contSince flags))) ∧
      ∀ s1, feedSeq (construct id cfg) corners1 stamps (n + 1) = Except.ok (s1, flags) →
        s1.converged = s.converged := by
  obtain ⟨s, flags, hfeed, _, hf, _, _, _, _, hmin, hconv, hk, hlast, _, hfirst⟩ :=
    feedSeq_inv id cfg corners stamps hlen n
  obtain ⟨s2, flags2, hfeed2, _, hf2, _, _, _, _, hmin2, hconv2, hk2, hlast2, _, hfirst2⟩ :=
    feedSeq_inv id cfg corners1 stamps hlen1 n
  refine ⟨s, flags, hfeed, fun i => (hk i).2.2.2.2, fun s1 h1 => ?_⟩
  rw [hfeed2] at h1
  injection h1 with h1
  injection h1 with hs hfl
  subst hs hfl
  rw [Bool.eq_iff_iff, converged_eq_true_iff, converged_eq_true_iff]
  simp only [hf, hf2, hmin, hmin2, hconv, hconv2, hlast, hlast2, hfirst, hfirst2,
    (hk _).2.2.2.2, (hk2 _).2.2.2.2]

/-- C20, at a concrete input: two sequences of squares of different position, both fed three
times at the timestamps 0, 1, 2. -/
theorem covariance_from_flags_witness :
    ∃ s flags,
      feedSeq (construct 7 ⟨1, 1, 1, 1, 1, 1, 1⟩)
        (fun _ => [⟨0, 0⟩, ⟨1, 0⟩, ⟨1, 1⟩, ⟨0, 1⟩]) (fun n => n) (2 + 1) =
        Except.ok (s, flags) ∧
      (∀ i : Fin 4,
        (s.kalman_filters_ i).errorCovPost =
          scalarMat (iterVar (1 * 1) (1 * 1) (contSince flags))) ∧
      ∀ s1,
        feedSeq (construct 7 ⟨1, 1, 1, 1, 1, 1, 1⟩)
          (fun _ => [⟨5, 5⟩, ⟨6, 5⟩, ⟨6, 6⟩, ⟨5, 6⟩]) (fun n => n) (2 + 1) =
          Except.ok (s1, flags) →
        s1.converged = s.converged :=
  covariance_from_flags 7 ⟨1, 1, 1, 1, 1, 1, 1⟩ (fun _ => [⟨0, 0⟩, ⟨1, 0⟩, ⟨1, 1⟩, ⟨0, 1⟩])
    (fun _ => [⟨5, 5⟩, ⟨6, 5⟩, ⟨6, 6⟩, ⟨5, 6⟩]) (fun n => n) (fun _ => rfl) (fun _ => rfl) 2

end tier4_tag_utils

namespace extrinsic_mapping_based_calibrator

/-! ## The registration cascade -/

/-- The inner loop returns a pair whose score is at most the initial score and at most the
score of every alignment; the pair is the initial one or an alignment that beats it. -/
theorem registratorLoop_spec {T : Type} (registrator : T → T × ℚ) (transforms : List T)
    (b : T × ℚ) :
    (registratorLoop registrator transforms b).2 ≤ b.2 ∧
      (∀ t ∈ transforms, (registratorLoop registrator transforms b).2 ≤ (registrator t).2) ∧
      (registratorLoop registrator transforms b = b ∨
        (registratorLoop registrator transforms b ∈ transforms.map registrator ∧
          (registratorLoop registrator transforms b).2 < b.2)) := by
  induction transforms generalizing b with
  | nil => simp [registratorLoop]
  | cons t rest ih =>
    by_cases h : (registrator t).2 < b.2
    · obtain ⟨h1, h2, h3⟩ := ih (registrator t)
      simp only [registratorLoop, h, if_true]
      refine ⟨le_trans h1 h.le, ?_, ?_⟩
      · intro t1 ht1
        rcases List.mem_cons.mp ht1 with rfl | hm
        · exact h1
        · exact h2 t1 hm
      · right
        rcases h3 with h3 | ⟨h3, h4⟩
        · rw [h3]
          exact ⟨by simp, h⟩
        · exact ⟨by simp only [List.map_cons, List.mem_cons]; exact Or.inr h3, lt_trans h4 h⟩
    · obtain ⟨h1, h2, h3⟩ := ih b
      simp only [registratorLoop, h, if_false]
      refine ⟨h1, ?_, ?_⟩
      · intro t1 ht1
        rcases List.mem_cons.mp ht1 with rfl | hm
        · exact le_trans h1 (not_lt.mp h)
        · exact h2 t1 hm
      · rcases h3 with h3 | ⟨h3, h4⟩
        · exact Or.inl h3
        · exact Or.inr ⟨by simp only [List.map_cons, List.mem_cons]; exact Or.inr h3, h4⟩

/-- The outer loop started from a pair of score at most `FLT_MAX` returns a pair whose
score is at most the initial score and at most the score of every performed alignment; the
pair is the initial one or a performed alignment that beats it. -/
theorem cascadeLoop_spec {T : Type} (identity : T) (registratators : List (T → T × ℚ))
    (transforms : List T) (b : T × ℚ) (hb : b.2 ≤ FLT_MAX) :
    (cascadeLoop identity registratators transforms b).2 ≤ b.2 ∧
      (∀ a ∈ alignments identity registratators transforms,
        (cascadeLoop identity registratators transforms b).2 ≤ a.2) ∧
      (cascadeLoop identity registratators transforms b = b ∨
        (cascadeLoop identity registratators transforms b ∈
            alignments identity registratators transforms ∧
          (cascadeLoop identity registratators transforms b).2 < b.2)) := by
  induction registratators generalizing transforms b with
  | nil => simp [cascadeLoop, alignments]
  | cons r rest ih =>
    obtain ⟨r1, r2, r3⟩ := registratorLoop_spec r transforms (identity, FLT_MAX)
    by_cases h : (registratorLoop r transforms (identity, FLT_MAX)).2 < b.2
    · obtain ⟨h1, h2, h3⟩ := ih (transforms ++ [(registratorLoop r transforms
        (identity, FLT_MAX)).1]) (registratorLoop r transforms (identity, FLT_MAX)) r1
      simp only [cascadeLoop, h, if_true, alignments, List.mem_append]
      have hmem : registratorLoop r transforms (identity, FLT_MAX) ∈ transforms.map r := by
        rcases r3 with r3 | ⟨r3, _⟩
        · rw [r3] at h
          exact absurd h (not_lt.mpr hb)
        · exact r3
      refine ⟨le_trans h1 h.le, ?_, Or.inr ?_⟩
      · rintro a (ha | ha)
        · obtain ⟨t, ht, rfl⟩ := List.mem_map.mp ha
          exact le_trans h1 (r2 t ht)
        · exact h2 a ha
      · rcases h3 with h3 | ⟨h3, h4⟩
        · rw [h3]
          exact ⟨Or.inl hmem, h⟩
        · exact ⟨Or.inr h3, lt_trans h4 h⟩
    · obtain ⟨h1, h2, h3⟩ := ih (transforms ++ [(registratorLoop r transforms
        (identity, FLT_MAX)).1]) b hb
      simp only [cascadeLoop, h, if_false, alignments, List.mem_append]
      refine ⟨h1, ?_, ?_⟩
      · rintro a (ha | ha)
        · obtain ⟨t, ht, rfl⟩ := List.mem_map.mp ha
          exact le_trans h1 (le_trans (not_lt.mp h) (r2 t ht))
        · exact h2 a ha
      · rcases h3 with h3 | ⟨h3, h4⟩
        · exact Or.inl h3
        · exact Or.inr ⟨Or.inr h3, h4⟩

/-- C16, refuted as stated: without initial transforms but with two registrators the cascade
still performs an alignment, since the first registrator appends the identity to the list of
transforms and the second registrator is run from it; the result is that alignment, score
1/2, and not the identity with the float maximum. -/
theorem findBestTransform_no_transforms_counterexample :
    findBestTransform (0 : ℤ) [] [fun t => (t + 1, 1 / 2), fun t => (t + 1, 1 / 2)] =
        (1, 1 / 2) ∧
      alignments (0 : ℤ) [fun t => (t + 1, 1 / 2), fun t => (t + 1, 1 / 2)] [] =
        [(1, 1 / 2)] ∧
      findBestTransform (0 : ℤ) [] [fun t => (t + 1, 1 / 2), fun t => (t + 1, 1 / 2)] ≠
        (0, FLT_MAX) := by
  have h : findBestTransform (0 : ℤ) [] [fun t => (t + 1, 1 / 2), fun t => (t + 1, 1 / 2)] =
      (1, 1 / 2) := by
    norm_num [findBestTransform, cascadeLoop, registratorLoop, FLT_MAX]
  refine ⟨h, by simp [alignments, registratorLoop], ?_⟩
  rw [h]
  simp

/-- C16, amended: `findBestTransform` returns a pair `(best_transform, best_score)` whose
score is at most the fitness score of every alignment that the cascade performed.  When some
performed alignment scores below the float maximum, the pair is one of the performed
alignments (its final transform and its score), hence one of minimum score; when none does,
the pair is the identity and the float maximum, which is the case without registrators, and
without initial transforms when there is a single registrator. -/
theorem findBestTransform_min {T : Type} (identity : T) (input_transforms : List T)
    (registratators : List (T → T × ℚ)) :
    (∀ a ∈ alignments identity registratators input_transforms,
      (findBestTransform identity input_transforms registratators).2 ≤ a.2) ∧
    ((∃ a ∈ alignments identity registratators input_transforms, a.2 < FLT_MAX) →
      findBestTransform identity input_transforms registratators ∈
        alignments identity registratators input_transforms) ∧
    ((∀ a ∈ alignments identity registratators input_transforms, FLT_MAX ≤ a.2) →
      findBestTransform identity input_transforms registratators = (identity, FLT_MAX)) ∧
    findBestTransform identity input_transforms [] = (identity, FLT_MAX) ∧
    ∀ registrator : T → T × ℚ,
      findBestTransform identity [] [registrator] = (identity, FLT_MAX) := by
  obtain ⟨_, h2, h3⟩ := cascadeLoop_spec identity registratators input_transforms
    (identity, FLT_MAX) (le_refl _)
  refine ⟨h2, ?_, ?_, rfl, fun registrator => ?_⟩
  · rintro ⟨a, ha, hlt⟩
    rcases h3 with h3 | ⟨h3, _⟩
    · have := h2 a ha
      rw [h3] at this
      exact absurd hlt (not_lt.mpr this)
    · exact h3
  · intro hall
    rcases h3 with h3 | ⟨h3, h4⟩
    · exact h3
    · exact absurd h4 (not_lt.mpr (hall _ h3))
  · simp [findBestTransform, cascadeLoop, registratorLoop]

/-- C16 amended, at a concrete input: integer transforms, the initial transforms 3 and 5, and
two registrators, the first scoring a transform `t` with `(t - 4)^2 + 1` and returning
`t + 1`, the second scoring with `t^2` and returning `t - 1`. -/
theorem findBestTransform_min_witness :
    (∀ a ∈ alignments (0 : ℤ)
        [fun t => (t + 1, ((t : ℚ) - 4) ^ 2 + 1), fun t => (t - 1, (t : ℚ) ^ 2)] [3, 5],
      (findBestTransform (0 : ℤ) [3, 5]
        [fun t => (t + 1, ((t : ℚ) - 4) ^ 2 + 1), fun t => (t - 1, (t : ℚ) ^ 2)]).2 ≤ a.2) ∧
    findBestTransform (0 : ℤ) [3, 5]
        [fun t => (t + 1, ((t : ℚ) - 4) ^ 2 + 1), fun t => (t - 1, (t : ℚ) ^ 2)] ∈
      alignments (0 : ℤ)
        [fun t => (t + 1, ((t : ℚ) - 4) ^ 2 + 1), fun t => (t - 1, (t : ℚ) ^ 2)] [3, 5] ∧
    findBestTransform (0 : ℤ) [3, 5] [] = (0, FLT_MAX) :=
  have h := findBestTransform_min (0 : ℤ) [3, 5]
    [fun t => (t + 1, ((t : ℚ) - 4) ^ 2 + 1), fun t => (t - 1, (t : ℚ) ^ 2)]
  have h0 := findBestTransform_min (0 : ℤ) [3, 5] []
  ⟨h.1,
    h.2.1 ⟨(4, 2), by simp [alignments]; norm_num, by norm_num [FLT_MAX]⟩,
    h0.2.2.1 (by simp [alignments])⟩

end extrinsic_mapping_based_calibrator

namespace tier4_tag_utils
open ApriltagHypothesis

/-! ## The fixed point of the continuous update -/

/-- C21: on an already-observed hypothesis (static model) with a non-negative new-hypothesis
threshold, `update` with an observation equal to the four current filtered corners returns
true and leaves the filtered corners unchanged, whatever the noise settings are: the
measurement equals the posterior state of every filter, so predict and correct keep it. -/
theorem update_fixed_point (s : ApriltagHypothesis) (hreach : Reachable s)
    (f0 f1 f2 f3 : Point2d) (stamp : Time) (hobs : s.first_observation_ = false)
    (hstatic : s.dynamics_model_ = DynamicsModel.Static)
    (hfilt : s.filtered_corner_points_2d_ = [f0, f1, f2, f3])
    (hthr : 0 ≤ s.new_hypothesis_transl_) :
    ∃ s1, s.update [f0, f1, f2, f3] stamp = Except.ok (s1, true) ∧
      s1.filtered_corner_points_2d_ = [f0, f1, f2, f3] := by
  obtain ⟨⟨p, qq, rr, _, _, _, hall⟩, hpost⟩ := reachable_bank_post s hreach hobs
  have hj : normGt ((mean4 f0 f1 f2 f3).sub (mean4 f0 f1 f2 f3)) s.new_hypothesis_transl_ =
      false := by
    rw [normGt_self]
    simpa using hthr
  refine ⟨_, update_continuous_eq s f0 f1 f2 f3 f0 f1 f2 f3 stamp hobs hstatic hfilt hj, ?_⟩
  have h0 := hpost 0
  have h1 := hpost 1
  have h2 := hpost 2
  have h3 := hpost 3
  simp only [hfilt, Fin.val_zero, Fin.val_one, Fin.val_two, fin4_val_three,
    List.getElem?_cons_zero, List.getElem?_cons_succ, Option.some.injEq] at h0 h1 h2 h3
  subst h0 h1 h2 h3
  simp [predict_correct_static _ _ _ _ _ (hall _)]

/-- C21, at a concrete input: the hypothesis after a first update and a continuous update
that moved the filtered corners, with threshold 50, process noise 2 and measurement noise 3,
fed its own filtered corners. -/
theorem update_fixed_point_witness :
    ∃ (s s1 : ApriltagHypothesis) (f0 f1 f2 f3 : Point2d), Reachable s ∧
      s.first_observation_ = false ∧ s.dynamics_model_ = DynamicsModel.Static ∧
      s.filtered_corner_points_2d_ = [f0, f1, f2, f3] ∧ 0 ≤ s.new_hypothesis_transl_ ∧
      [f0, f1, f2, f3] ≠ ([⟨104, 99⟩, ⟨106, 99⟩, ⟨106, 101⟩, ⟨104, 101⟩] : List Point2d) ∧
      s.update [f0, f1, f2, f3] 12 = Except.ok (s1, true) ∧
      s1.filtered_corner_points_2d_ = [f0, f1, f2, f3] := by
  have hj : normGt ((mean4 ⟨99, 99⟩ ⟨101, 99⟩ ⟨101, 101⟩ ⟨99, 101⟩).sub
      (mean4 ⟨104, 99⟩ ⟨106, 99⟩ ⟨106, 101⟩ ⟨104, 101⟩)) 50 = false := by
    norm_num [normGt, sqrtGt, mean4, Point2d.sub]
  have hreach := Reachable.update _ _ _ _ _
    (Reachable.update _ _ _ _ _ (Reachable.construct 7 ⟨1, 0, 1, 50, 1, 3, 2⟩)
      (update_first_eq _ ⟨99, 99⟩ ⟨101, 99⟩ ⟨101, 101⟩ ⟨99, 101⟩ [] 5 rfl rfl))
    (update_continuous_eq _ ⟨99, 99⟩ ⟨101, 99⟩ ⟨101, 101⟩ ⟨99, 101⟩
      ⟨104, 99⟩ ⟨106, 99⟩ ⟨106, 101⟩ ⟨104, 101⟩ 9 rfl rfl rfl hj)
  have hthr : (0 : ℚ) ≤ 50 := by norm_num
  obtain ⟨s1, hu, hf⟩ := update_fixed_point _ hreach _ _ _ _ 12 rfl rfl rfl hthr
  refine ⟨_, s1, _, _, _, _, hreach, rfl, rfl, rfl, hthr, ?_, hu, hf⟩
  simp only [initStaticKalmanFilter_eq]
  norm_num [KalmanFilter.predict, KalmanFilter.correct, Mat2.solve, Mat2.pinv, Mat2.det,
    Mat2.mul, Mat2.add, Mat2.sub, Mat2.t, Mat2.eye, Mat2.mulVec, Vec2.add, Vec2.sub, scalarMat,
    construct, Mat2.zeros]

end tier4_tag_utils
